import Mathlib

/-!
# nxsearch: filter registry, filter pipelines and the in-memory term dictionary

A shallow embedding of `src/core/filters.c`, `src/core/filters_builtin.c` and
`src/index/idxterm.c`.

Conventions of the embedding.

* A C byte buffer given as `(pointer, length)` is a `List UInt8`; the length is the
  length of the list.  A NUL-terminated C string used only as a name (`strcmp`) is a
  `String`.
* A nullable pointer is an `Option`; `none` is `NULL`.
* A function that can dereference a null or ill-typed pointer returns an outer
  `Option`; there `none` stands for undefined behaviour (the C program has no result).
* Heap objects that are shared by pointer (terms) live in an explicit store indexed by
  address; the maps and lists of the index hold addresses.
* Memory exhaustion (`malloc`, `calloc`, `asprintf` returning failure) is outside the
  model.
-/

namespace Nxs

/-! ## Byte strings -/

/-- The bytes of an ASCII literal. -/
def bytes (s : String) : List UInt8 :=
  s.toList.map (fun c => c.toNat.toUInt8)

/-- C `strlen` on a buffer that is followed by a terminating NUL: the number of bytes
before the first NUL byte. -/
def strlen (value : List UInt8) : Nat :=
  (value.takeWhile (fun b => b != 0)).length

/-! ## rhashmap -/

/-- Modelled from the spec: the `rhashmap` library (`rhashmap.h`) is not among the
embedded sources; a map is the finite partial function from keys to values that the spec
calls a "mapping" (`term_map`: term value → term, `td_map`: term ID → term). -/
def rhashmap (κ ν : Type) : Type := κ → Option ν

/-- Modelled from the spec: `rhashmap_create`, the empty mapping. -/
def rhashmap_create {κ ν : Type} : rhashmap κ ν :=
  fun _ => none

/-- Modelled from the spec: `rhashmap_get`, the value stored under the key or `NULL`. -/
def rhashmap_get {κ ν : Type} (hmap : rhashmap κ ν) (key : κ) : Option ν :=
  hmap key

/-- Modelled from the spec: `rhashmap_put`.  If the key is present the map is left as
it is and the value already stored is returned; otherwise the pair is inserted and the
given value is returned (this is what `idxterm_create` relies on to detect a
duplicate). -/
def rhashmap_put {κ ν : Type} [DecidableEq κ] (hmap : rhashmap κ ν) (key : κ) (val : ν) :
    rhashmap κ ν × ν :=
  match hmap key with
  | some old => (hmap, old)
  | none => (fun k => if k = key then some val else hmap k, val)

/-- Modelled from the spec: `rhashmap_del`, remove the key if it is present. -/
def rhashmap_del {κ ν : Type} [DecidableEq κ] (hmap : rhashmap κ ν) (key : κ) :
    rhashmap κ ν :=
  fun k => if k = key then none else hmap k

/-! ## Filters (`filters.c`) -/

/-- The action a filter reports (`filter_action_t`). -/
inductive filter_action_t where
  | FILT_MUTATION
  | FILT_DROP
  | FILT_ERROR
  deriving DecidableEq, Repr

open filter_action_t

/-- A string buffer (`strbuf_t`): `value` and `length`. -/
abbrev strbuf_t := List UInt8

/-- The operations vector of a filter (`filter_ops_t`).  `create` and `destroy` may be
`NULL`.  `filter` receives the context pointer and the buffer and yields the action and
the buffer as the filter left it; the outer `none` is undefined behaviour inside the
filter.  A `destroy` has no result; only its being there matters. -/
structure filter_ops_t (κ : Type) where
  create : Option (List UInt8 → Option κ)
  destroy : Option (Option κ → Unit)
  filter : Option κ → strbuf_t → Option (filter_action_t × strbuf_t)

/-- A registry slot (`struct filter_entry`).  `nxs_filter_register` asserts
`name && ops`, so both are non-null. -/
structure filter_entry_t (κ : Type) where
  name : String
  ops : filter_ops_t κ

/-- The part of `nxs_t` the filters use: `filters` is the array prefix
`nxs->filters[0 .. filters_count - 1]`; the slots above it are never read. -/
structure nxs_t (κ : Type) where
  filters : List (filter_entry_t κ)

/-- The field `nxs->filters_count`. -/
def nxs_t.filters_count {κ : Type} (nxs : nxs_t κ) : Nat :=
  nxs.filters.length

/-- The registry right after `filters_sysinit`: no entry. -/
def filters_sysinit (κ : Type) : nxs_t κ :=
  { filters := [] }

/-- The loop of `filter_lookup` over the entries from the current one on. -/
def filter_lookup_loop {κ : Type} : List (filter_entry_t κ) → String → Option (filter_ops_t κ)
  | [], _ => none
  | filtent :: rest, name =>
    if filtent.name = name then some filtent.ops else filter_lookup_loop rest name

/-- The function `filter_lookup`: the ops of the first entry with that name, or `NULL`. -/
def filter_lookup {κ : Type} (nxs : nxs_t κ) (name : String) : Option (filter_ops_t κ) :=
  filter_lookup_loop nxs.filters name

/-- The value of `EEXIST`. -/
def EEXIST : Nat := 17

/-- What `nxs_filter_register` leaves behind: the return value, the registry and
`errno`. -/
structure register_result (κ : Type) where
  ret : Int
  nxs : nxs_t κ
  errno : Nat

/-- The function `nxs_filter_register`.  `FILTER_MAX_ENTRIES` is defined in `filters.h`,
which is not among the embedded sources, and is a parameter; `errno` is threaded
through. -/
def nxs_filter_register {κ : Type} (FILTER_MAX_ENTRIES : Nat) (nxs : nxs_t κ) (errno : Nat)
    (name : String) (ops : filter_ops_t κ) : register_result κ :=
  let count := nxs.filters_count
  if count = FILTER_MAX_ENTRIES then
    { ret := -1, nxs := nxs, errno := errno }
  else if (filter_lookup nxs name).isSome then
    { ret := -1, nxs := nxs, errno := EEXIST }
  else
    { ret := 0, nxs := { filters := nxs.filters ++ [{ name := name, ops := ops }] },
      errno := errno }

/-- A pipeline slot (`filter_t`). -/
structure filter_t (κ : Type) where
  context : Option κ
  ops : Option (filter_ops_t κ)

/-- A pipeline (`struct filter_pipeline`): `lang` holds at most two bytes (the third
byte of the array is the NUL), `filters` is the flexible array of `count` slots. -/
structure filter_pipeline_t (κ : Type) where
  lang : List UInt8
  filters : List (filter_t κ)

/-- The field `fp->count`. -/
def filter_pipeline_t.count {κ : Type} (fp : filter_pipeline_t κ) : Nat :=
  fp.filters.length

/-- The loop of `filter_pipeline_destroy` from the current slot on: the contexts that
were handed to a `destroy`, in slot order, and whether the loop ran to its end (`true`)
or came to a slot whose `filt->ops` is `NULL`, which it dereferences (`false`). -/
def filter_pipeline_destroy_loop {κ : Type} : List (filter_t κ) → List (Option κ) × Bool
  | [] => ([], true)
  | filt :: rest =>
    match filt.ops with
    | none => ([], false)
    | some ops =>
      let r := filter_pipeline_destroy_loop rest
      (if ops.destroy.isSome then filt.context :: r.1 else r.1, r.2)

/-- The function `filter_pipeline_destroy`. -/
def filter_pipeline_destroy {κ : Type} (fp : filter_pipeline_t κ) : List (Option κ) × Bool :=
  filter_pipeline_destroy_loop fp.filters

/-- A slot as `calloc` leaves it. -/
def filter_t.zero {κ : Type} : filter_t κ :=
  { context := none, ops := none }

/-- The loop of `filter_pipeline_create` over the names from the current one on.  The
result is the slots from the current one on as the loop leaves them, and whether the loop
ran to its end (`true`) or jumped to `err` (`false`). -/
def filter_pipeline_fill {κ : Type} (nxs : nxs_t κ) (lang : List UInt8) :
    List String → List (filter_t κ) × Bool
  | [] => ([], true)
  | name :: rest =>
    match filter_lookup nxs name with
    | none => ({ context := none, ops := none } :: rest.map (fun _ => filter_t.zero), false)
    | some ops =>
      match ops.create with
      | none =>
        let r := filter_pipeline_fill nxs lang rest
        ({ context := none, ops := some ops } :: r.1, r.2)
      | some create =>
        match create lang with
        | none =>
          ({ context := none, ops := some ops } :: rest.map (fun _ => filter_t.zero), false)
        | some ctx =>
          let r := filter_pipeline_fill nxs lang rest
          ({ context := some ctx, ops := some ops } :: r.1, r.2)

/-- The function `filter_pipeline_create`.  `filters[]` and `count` are the list of
names.  The inner option is the returned pointer; the result is `none` when the unwinding
through `filter_pipeline_destroy` dereferences a `NULL` ops. -/
def filter_pipeline_create {κ : Type} (nxs : nxs_t κ) (lang : List UInt8)
    (filters : List String) : Option (Option (filter_pipeline_t κ)) :=
  let saved := (lang.takeWhile (fun b => b != 0)).take 2
  let r := filter_pipeline_fill nxs saved filters
  let fp : filter_pipeline_t κ := { lang := saved, filters := r.1 }
  if r.2 then some (some fp)
  else
    if (filter_pipeline_destroy fp).2 then some none else none

/-- The loop of `filter_pipeline_run` from the current slot on. -/
def filter_pipeline_run_loop {κ : Type} :
    List (filter_t κ) → strbuf_t → Option (filter_action_t × strbuf_t)
  | [], buf => some (FILT_MUTATION, buf)
  | filt :: rest, buf =>
    match filt.ops with
    | none => none
    | some ops =>
      match ops.filter filt.context buf with
      | none => none
      | some (action, buf) =>
        if action ≠ FILT_MUTATION then some (action, buf)
        else filter_pipeline_run_loop rest buf

/-- The function `filter_pipeline_run`: the action returned and the buffer as the
filters left it. -/
def filter_pipeline_run {κ : Type} (fp : filter_pipeline_t κ) (buf : strbuf_t) :
    Option (filter_action_t × strbuf_t) :=
  filter_pipeline_run_loop fp.filters buf

/-! ## Built-in filters (`filters_builtin.c`) -/

/-- What the `void *` context of a built-in filter points to: a `utf8_ctx_t`, a
`struct sb_stemmer`, an `rhashmap_t` of stop words, or no object at all (an integer cast
to a pointer, as the values stored in `swdicts`). -/
inductive context_t where
  | utf8 (ctx : Nat)
  | stemmer (sbs : Nat)
  | swmap (m : rhashmap (List UInt8) Nat)
  | raw (p : Nat)

/-- The library functions the built-in filters call (`utf8.h`, `strbuf.h`,
`libstemmer.h`), which are not among the embedded sources.  Handles are numbers.
`utf8_normalize` and `strbuf_acquire` yield their return value and the buffer as they
leave it; `sb_stemmer_stem` yields the stemmed bytes (`sb_stemmer_length` is their
length). -/
structure libs_t where
  utf8_ctx_create : List UInt8 → Option Nat
  utf8_normalize : Nat → strbuf_t → Int × strbuf_t
  sb_stemmer_new : List UInt8 → Option Nat
  sb_stemmer_stem : Nat → List UInt8 → List UInt8
  strbuf_acquire : strbuf_t → List UInt8 → Int × strbuf_t

/-- The function `normalizer_create`. -/
def normalizer_create (L : libs_t) (lang : List UInt8) : Option context_t :=
  (L.utf8_ctx_create lang).map context_t.utf8

/-- The function `normalizer_filter`. -/
def normalizer_filter (L : libs_t) (arg : Option context_t) (buf : strbuf_t) :
    Option (filter_action_t × strbuf_t) :=
  match arg with
  | some (context_t.utf8 ctx) =>
    let r := L.utf8_normalize ctx buf
    if r.1 = -1 then some (FILT_ERROR, r.2) else some (FILT_MUTATION, r.2)
  | _ => none

/-- The constant `normalizer_ops`. -/
def normalizer_ops (L : libs_t) : filter_ops_t context_t :=
  { create := some (normalizer_create L),
    destroy := some (fun _ => ()),
    filter := normalizer_filter L }

/-- The loop of `stopwords_sysinit` over the results of `getline`: each line, its last
byte overwritten with NUL, is put under its full length with the value `0x1`.  The map
is made with `RHM_NOCOPY` and so keeps the pointer `line`, a buffer that `getline`
reuses and that is freed after the loop; the model keeps the bytes the line had when it
was put. -/
def stopwords_load : List (List UInt8) → rhashmap (List UInt8) Nat → rhashmap (List UInt8) Nat
  | [], swdicts => swdicts
  | line :: rest, swdicts =>
    if 0 < line.length then
      stopwords_load rest (rhashmap_put swdicts (line.dropLast ++ [0]) 1).1
    else swdicts

/-- The function `stopwords_sysinit`: the return value and the global `swdicts`.
The argument is the stop-word file, `none` when `fopen` fails, else what the successive
calls of `getline` return. -/
def stopwords_sysinit (swfile : Option (List (List UInt8))) :
    Int × rhashmap (List UInt8) Nat :=
  match swfile with
  | none => (0, rhashmap_create)
  | some lines => (0, stopwords_load lines rhashmap_create)

/-- The function `stopwords_create`: the value stored in `swdicts` under the bytes of
`lang`, handed back as the context pointer. -/
def stopwords_create (swdicts : rhashmap (List UInt8) Nat) (lang : List UInt8) :
    Option context_t :=
  match rhashmap_get swdicts (lang.take (strlen lang)) with
  | none => none
  | some v => if v = 0 then none else some (context_t.raw v)

/-- The function `stopwords_filter`. -/
def stopwords_filter (arg : Option context_t) (buf : strbuf_t) :
    Option (filter_action_t × strbuf_t) :=
  match arg with
  | none => some (FILT_MUTATION, buf)
  | some (context_t.swmap swmap) =>
    match rhashmap_get swmap buf with
    | none => some (FILT_MUTATION, buf)
    | some v => if v = 0 then some (FILT_MUTATION, buf) else some (FILT_DROP, buf)
  | some _ => none

/-- The constant `stopwords_ops`. -/
def stopwords_ops (swdicts : rhashmap (List UInt8) Nat) : filter_ops_t context_t :=
  { create := some (stopwords_create swdicts),
    destroy := none,
    filter := stopwords_filter }

/-- The function `stemmer_create`. -/
def stemmer_create (L : libs_t) (lang : List UInt8) : Option context_t :=
  (L.sb_stemmer_new lang).map context_t.stemmer

/-- The function `stemmer_filter`. -/
def stemmer_filter (L : libs_t) (arg : Option context_t) (buf : strbuf_t) :
    Option (filter_action_t × strbuf_t) :=
  match arg with
  | some (context_t.stemmer sbs) =>
    let stemmed := L.sb_stemmer_stem sbs buf
    let r := L.strbuf_acquire buf stemmed
    if r.1 = -1 then some (FILT_ERROR, r.2) else some (FILT_MUTATION, r.2)
  | _ => none

/-- The constant `stemmer_ops`. -/
def stemmer_ops (L : libs_t) : filter_ops_t context_t :=
  { create := some (stemmer_create L),
    destroy := some (fun _ => ()),
    filter := stemmer_filter L }

/-- What `filters_builtin_sysinit` leaves behind. -/
structure sysinit_result where
  ret : Int
  nxs : nxs_t context_t
  errno : Nat
  swdicts : rhashmap (List UInt8) Nat

/-- The function `filters_builtin_sysinit`. -/
def filters_builtin_sysinit (L : libs_t) (FILTER_MAX_ENTRIES : Nat)
    (swfile : Option (List (List UInt8))) (nxs : nxs_t context_t) (errno : Nat) :
    sysinit_result :=
  let sw := stopwords_sysinit swfile
  if sw.1 = -1 then
    { ret := -1, nxs := nxs, errno := errno, swdicts := sw.2 }
  else
    let r1 := nxs_filter_register FILTER_MAX_ENTRIES nxs errno "normalizer" (normalizer_ops L)
    let r2 := nxs_filter_register FILTER_MAX_ENTRIES r1.nxs r1.errno "stopwords"
      (stopwords_ops sw.2)
    let r3 := nxs_filter_register FILTER_MAX_ENTRIES r2.nxs r2.errno "stemmer" (stemmer_ops L)
    { ret := 0, nxs := r3.nxs, errno := r3.errno, swdicts := sw.2 }

/-- The registries that `nxs_filter_register` calls lead to from the empty one. -/
inductive registry_reachable {κ : Type} (FILTER_MAX_ENTRIES : Nat) : nxs_t κ → Prop where
  | init : registry_reachable FILTER_MAX_ENTRIES (filters_sysinit κ)
  | register (nxs : nxs_t κ) (errno : Nat) (name : String) (ops : filter_ops_t κ) :
      registry_reachable FILTER_MAX_ENTRIES nxs →
      registry_reachable FILTER_MAX_ENTRIES
        (nxs_filter_register FILTER_MAX_ENTRIES nxs errno name ops).nxs

/-! ## Terms and the in-memory dictionary (`idxterm.c`) -/

/-- Modelled from the spec: the CRoaring library (`roaring.h`) is not among the
embedded sources.  A `roaring_bitmap_t` is the posting list of the spec, a set of
document IDs; CRoaring's `roaring_bitmap_t` holds 32-bit unsigned integers. -/
abbrev roaring_bitmap_t := Finset Nat

/-- Modelled from the spec: `roaring_bitmap_create`, the empty bitmap. -/
def roaring_bitmap_create : roaring_bitmap_t := ∅

/-- Modelled from the spec: `void roaring_bitmap_add(roaring_bitmap_t *r, uint32_t x)`,
add a member.  The parameter is a `uint32_t`: C converts the argument to it, that is,
reduces it modulo `2^32`. -/
def roaring_bitmap_add (r : roaring_bitmap_t) (x : Nat) : roaring_bitmap_t :=
  insert (x % 2 ^ 32) r

/-- A term object (`idxterm_t`): `id` is a `nxs_term_id_t` (32 bits), `value` the bytes
copied from the token (the NUL that ends them is not listed). -/
structure idxterm_t where
  id : Nat
  offset : Nat
  doc_bitmap : roaring_bitmap_t
  value : List UInt8

/-- The part of `nxs_index_t` the term module uses.  `terms` is the heap of term
objects by address (`none`: no live term there); `term_map`, `td_map` and `term_list`
hold addresses of terms. -/
structure nxs_index_t where
  terms : Nat → Option idxterm_t
  term_map : rhashmap (List UInt8) Nat
  td_map : rhashmap Nat Nat
  term_list : List Nat

/-- The index with an empty dictionary, as `idxterm_sysinit` and the index creation
leave it. -/
def idxterm_sysinit : nxs_index_t :=
  { terms := fun _ => none, term_map := rhashmap_create, td_map := rhashmap_create,
    term_list := [] }

/-- The term object as `idxterm_create` sets it up. -/
def idxterm_init (token : List UInt8) (offset : Nat) : idxterm_t :=
  { id := 0, offset := offset, doc_bitmap := roaring_bitmap_create, value := token }

/-- What `idxterm_create` leaves behind: the returned pointer and the index. -/
structure idxterm_create_result where
  ret : Option Nat
  idx : nxs_index_t

/-- The function `idxterm_create`.  `term` is the address `malloc` returns; `token` and
`len` are the list `token`.  The size computed with `(unsigned)len` is not modelled:
values of `2^32` bytes or more are outside the model. -/
def idxterm_create (idx : nxs_index_t) (term : Nat) (token : List UInt8) (offset : Nat) :
    idxterm_create_result :=
  let obj : idxterm_t := idxterm_init token offset
  let heap : Nat → Option idxterm_t := fun a => if a = term then some obj else idx.terms a
  let r := rhashmap_put idx.term_map obj.value term
  if r.2 ≠ term then
    { ret := none,
      idx := { idx with terms := fun a => if a = term then none else heap a } }
  else
    { ret := some term,
      idx := { idx with terms := heap, term_map := r.1,
                        term_list := idx.term_list ++ [term] } }

/-- The function `idxterm_destroy`; `none` when `term` is not a live term. -/
def idxterm_destroy (idx : nxs_index_t) (term : Nat) : Option nxs_index_t :=
  match idx.terms term with
  | none => none
  | some obj =>
    let term_len := strlen obj.value
    let term_list := idx.term_list.erase term
    let td_map := if obj.id ≠ 0 then rhashmap_del idx.td_map obj.id else idx.td_map
    let term_map := rhashmap_del idx.term_map (obj.value.take term_len)
    some { terms := fun a => if a = term then none else idx.terms a,
           term_map := term_map, td_map := td_map, term_list := term_list }

/-- The function `idxterm_assign`; `none` when `term` is not a live term. -/
def idxterm_assign (idx : nxs_index_t) (term : Nat) (term_id : Nat) : Option nxs_index_t :=
  match idx.terms term with
  | none => none
  | some obj =>
    let obj : idxterm_t := { obj with id := term_id }
    some { idx with terms := fun a => if a = term then some obj else idx.terms a,
                    td_map := (rhashmap_put idx.td_map obj.id term).1 }

/-- The function `idxterm_lookup`. -/
def idxterm_lookup (idx : nxs_index_t) (value : List UInt8) : Option Nat :=
  rhashmap_get idx.term_map value

/-- A token (`token_t`): its buffer and the term it is resolved to. -/
structure token_t where
  buffer : strbuf_t
  idxterm : Option Nat

/-- A token stream (`tokenset_t`): the active list and the staging list. -/
structure tokenset_t where
  list : List token_t
  staging : List token_t

/-- The loop of `idxterm_resolve_tokens` from the current token on: the tokens that stay
in the active list and the tokens moved to the tail of the staging list, in order. -/
def idxterm_resolve_loop (idx : nxs_index_t) (stage : Bool) :
    List token_t → List token_t × List token_t
  | [] => ([], [])
  | token :: rest =>
    let term := idxterm_lookup idx token.buffer
    let r := idxterm_resolve_loop idx stage rest
    let token : token_t := { token with idxterm := term }
    if term.isNone && stage then (r.1, token :: r.2) else (token :: r.1, r.2)

/-- The function `idxterm_resolve_tokens`.  It reads the index and writes the token
stream only. -/
def idxterm_resolve_tokens (idx : nxs_index_t) (tokens : tokenset_t) (stage : Bool) :
    tokenset_t :=
  let r := idxterm_resolve_loop idx stage tokens.list
  { list := r.1, staging := tokens.staging ++ r.2 }

/-- The function `idxterm_add_doc`: the return value and the index; `none` when
`td_map` holds the address of no live term.  `doc_id` is a `nxs_doc_id_t` (64 bits). -/
def idxterm_add_doc (idx : nxs_index_t) (term_id : Nat) (doc_id : Nat) :
    Option (Int × nxs_index_t) :=
  match rhashmap_get idx.td_map term_id with
  | none => some (-1, idx)
  | some term =>
    match idx.terms term with
    | none => none
    | some obj =>
      let obj : idxterm_t := { obj with doc_bitmap := roaring_bitmap_add obj.doc_bitmap doc_id }
      some (0, { idx with terms := fun a => if a = term then some obj else idx.terms a })

/-- The index states that calls of the term module lead to from the empty dictionary.
`value_ok` says which token values `idxterm_create` is called with.  `idxterm_create`
gets from `malloc` an address that holds no live object; `idxterm_assign` is called
under its precondition (`term.id == 0`, `term_id != 0`, `term_id` not in `td_map`) and,
like `idxterm_destroy`, with a term of this index. -/
inductive index_reachable (value_ok : List UInt8 → Prop) : nxs_index_t → Prop where
  | init : index_reachable value_ok idxterm_sysinit
  | create (idx : nxs_index_t) (term : Nat) (token : List UInt8) (offset : Nat) :
      index_reachable value_ok idx → idx.terms term = none → value_ok token →
      index_reachable value_ok (idxterm_create idx term token offset).idx
  | assign (idx idx1 : nxs_index_t) (term term_id : Nat) (obj : idxterm_t) :
      index_reachable value_ok idx → term ∈ idx.term_list → idx.terms term = some obj →
      obj.id = 0 → term_id ≠ 0 → rhashmap_get idx.td_map term_id = none →
      idxterm_assign idx term term_id = some idx1 →
      index_reachable value_ok idx1
  | add_doc (idx : nxs_index_t) (term_id doc_id : Nat) (r : Int × nxs_index_t) :
      index_reachable value_ok idx → idxterm_add_doc idx term_id doc_id = some r →
      index_reachable value_ok r.2
  | resolve_tokens (idx : nxs_index_t) (tokens out : tokenset_t) (stage : Bool) :
      index_reachable value_ok idx → idxterm_resolve_tokens idx tokens stage = out →
      index_reachable value_ok idx
  | destroy (idx idx1 : nxs_index_t) (term : Nat) :
      index_reachable value_ok idx → term ∈ idx.term_list →
      idxterm_destroy idx term = some idx1 →
      index_reachable value_ok idx1

/-- Dictionary coherence of one index state: every term of `term_list` is live, is the
term `term_map` holds under its value and, when its ID is not zero, the term `td_map`
holds under its ID. -/
def dictionary_coherent (idx : nxs_index_t) : Prop :=
  ∀ term ∈ idx.term_list, ∃ obj, idx.terms term = some obj ∧
    rhashmap_get idx.term_map obj.value = some term ∧
    (obj.id ≠ 0 → rhashmap_get idx.td_map obj.id = some term)

/-- The spec's words for a run in which every filter keeps the token: the filters of
the list, applied in slot order each to the buffer the one before it left, all return
`MUTATION`, and `out` is the buffer the last one leaves. -/
def mutation_chain {κ : Type} : List (filter_t κ) → strbuf_t → strbuf_t → Prop
  | [], buf, out => out = buf
  | filt :: rest, buf, out =>
    ∃ ops mid, filt.ops = some ops ∧
      ops.filter filt.context buf = some (FILT_MUTATION, mid) ∧ mutation_chain rest mid out

/-- The invariant that carries dictionary coherence through the calls: `term_list` has
no repetition; every term of it is live, has a value without a NUL byte, and is what
`term_map` holds under its value and `td_map` under its ID when that is not zero; and
`term_map` and `td_map` hold nothing but terms of `term_list` under their own value and
their own non-zero ID. -/
structure dictionary_inv (idx : nxs_index_t) : Prop where
  nodup : idx.term_list.Nodup
  live : ∀ term ∈ idx.term_list, ∃ obj, idx.terms term = some obj ∧
    (0 : UInt8) ∉ obj.value ∧ idx.term_map obj.value = some term ∧
    (obj.id ≠ 0 → idx.td_map obj.id = some term)
  term_map_back : ∀ v term, idx.term_map v = some term →
    term ∈ idx.term_list ∧ ∃ obj, idx.terms term = some obj ∧ obj.value = v
  td_map_back : ∀ i term, idx.td_map i = some term →
    i ≠ 0 ∧ term ∈ idx.term_list ∧ ∃ obj, idx.terms term = some obj ∧ obj.id = i

/-- The index states that calls of `idxterm_create` alone lead to from the empty
dictionary; `malloc` hands out an address that holds no live object. -/
inductive create_reachable : nxs_index_t → Prop where
  | init : create_reachable idxterm_sysinit
  | create (idx : nxs_index_t) (term : Nat) (token : List UInt8) (offset : Nat) :
      create_reachable idx → idx.terms term = none →
      create_reachable (idxterm_create idx term token offset).idx

/-- Modelled from the spec: the mapped term store (`idxmap_t`, `idx->terms_memmap`) and
the macro `MAP_GET_OFF` are declared in headers that are not among the embedded sources.
The store is taken as far as `idxterm_incr_total` uses it: `counters off` is the value
of the 64-bit counter slot that `MAP_GET_OFF(baseptr, off)` points to. -/
structure idxmap_t where
  counters : Nat → Nat

/-- The function `idxterm_incr_total`: the index and the mapped term store as the call
leaves them; `none` when `term` is not a live term.  The store is the field
`idx->terms_memmap`, passed beside the dictionary part of the index.  `count` is an
`unsigned`; the addition is that of `atomic_fetch_add` on a `uint64_t`, modulo `2^64`
(its sequential effect; the memory order is not modelled). -/
def idxterm_incr_total (idx : nxs_index_t) (terms_memmap : idxmap_t) (term : Nat)
    (count : Nat) : Option (nxs_index_t × idxmap_t) :=
  match idx.terms term with
  | none => none
  | some obj =>
    some (idx, { counters := fun off =>
      if off = obj.offset then (terms_memmap.counters off + count) % 2 ^ 64
      else terms_memmap.counters off })

/-! ## Sample inputs -/

/-- A registry of `n` entries with distinct names, the first of them "normalizer", as
`n` registrations on the empty registry leave it. -/
def full_registry (κ : Type) (ops : filter_ops_t κ) (n : Nat) : nxs_t κ :=
  { filters := (List.range n).map (fun i =>
      { name := if i = 0 then "normalizer" else String.mk (List.replicate i 'x'),
        ops := ops }) }

/-- The index after `idxterm_create` of the two bytes "ab" (at address 1, offset 0) and
of the five bytes "ab", NUL, "cd" (at address 2, offset 8). -/
def nul_index : nxs_index_t :=
  (idxterm_create (idxterm_create idxterm_sysinit 1 [97, 98] 0).idx 2
    [97, 98, 0, 99, 100] 8).idx

/-- The index `nul_index` after `idxterm_destroy` of the term at address 2. -/
def nul_index_destroyed : nxs_index_t :=
  (idxterm_destroy nul_index 2).getD idxterm_sysinit

/-- The index after `idxterm_create` of "dog" (at address 1, offset 0) and
`idxterm_assign` of the term ID 1 to it. -/
def sample_index : nxs_index_t :=
  (idxterm_assign (idxterm_create idxterm_sysinit 1 [100, 111, 103] 0).idx 1 1).getD
    idxterm_sysinit


/-- A filter without `create` and `destroy` that passes every buffer through. -/
def sample_ops (κ : Type) : filter_ops_t κ :=
  { create := none, destroy := none, filter := fun _ buf => some (FILT_MUTATION, buf) }

/-- Library functions for a sample run in which `utf8_ctx_create` fails for every
language. -/
def sample_libs_no_utf8 : libs_t :=
  { utf8_ctx_create := fun _ => none,
    utf8_normalize := fun _ buf => (0, buf),
    sb_stemmer_new := fun _ => some 2,
    sb_stemmer_stem := fun _ b => b,
    strbuf_acquire := fun _ b => (0, b) }

/-- Library functions for the sample runs: every language has a normaliser and a
stemmer, and both leave the buffer as it is. -/
def sample_libs : libs_t :=
  { utf8_ctx_create := fun _ => some 1,
    utf8_normalize := fun _ buf => (0, buf),
    sb_stemmer_new := fun _ => some 2,
    sb_stemmer_stem := fun _ b => b,
    strbuf_acquire := fun _ b => (0, b) }

/-! ## The filter registry -/

theorem filter_lookup_loop_isSome {κ : Type} (l : List (filter_entry_t κ)) (name : String) :
    (filter_lookup_loop l name).isSome = true ↔ ∃ e ∈ l, e.name = name := by
  induction l with
  | nil => simp [filter_lookup_loop]
  | cons e l ih =>
    by_cases h : e.name = name
    · simp [filter_lookup_loop, h]
    · simp [filter_lookup_loop, h, ih]

theorem filter_lookup_loop_eq_none {κ : Type} (l : List (filter_entry_t κ)) (name : String) :
    filter_lookup_loop l name = none ↔ ∀ e ∈ l, e.name ≠ name := by
  induction l with
  | nil => simp [filter_lookup_loop]
  | cons e l ih =>
    by_cases h : e.name = name
    · simp [filter_lookup_loop, h]
    · simp [filter_lookup_loop, h, ih]

theorem filter_lookup_loop_append {κ : Type} (l : List (filter_entry_t κ))
    (e : filter_entry_t κ) (name : String) :
    filter_lookup_loop (l ++ [e]) name =
      match filter_lookup_loop l name with
      | some ops => some ops
      | none => if e.name = name then some e.ops else none := by
  induction l with
  | nil => simp [filter_lookup_loop]
  | cons a l ih =>
    by_cases h : a.name = name
    · simp [filter_lookup_loop, h]
    · simp [filter_lookup_loop, h, ih]

theorem filters_builtin_sysinit_filters (L : libs_t) (FILTER_MAX_ENTRIES : Nat)
    (swfile : Option (List (List UInt8))) (errno : Nat) (h : 4 ≤ FILTER_MAX_ENTRIES) :
    (filters_builtin_sysinit L FILTER_MAX_ENTRIES swfile (filters_sysinit context_t)
        errno).nxs.filters =
      [{ name := "normalizer", ops := normalizer_ops L },
       { name := "stopwords", ops := stopwords_ops (stopwords_sysinit swfile).2 },
       { name := "stemmer", ops := stemmer_ops L }] := by
  have h0 : (0 : Nat) ≠ FILTER_MAX_ENTRIES := by omega
  have h1 : (1 : Nat) ≠ FILTER_MAX_ENTRIES := by omega
  have h2 : (2 : Nat) ≠ FILTER_MAX_ENTRIES := by omega
  have hs : (stopwords_sysinit swfile).1 = 0 := by
    cases swfile <;> rfl
  simp [filters_builtin_sysinit, hs, nxs_filter_register, nxs_t.filters_count,
    filters_sysinit, filter_lookup, filter_lookup_loop, h0, h1, h2]

/-- C1, as stated, does not hold, whatever positive value `FILTER_MAX_ENTRIES` has: on a
registry that holds `FILTER_MAX_ENTRIES` entries, one of them "normalizer", registering
"normalizer" again returns `-1` at the capacity check, which leaves `errno` as it was
(here 0) and not at `EEXIST`. -/
theorem nxs_filter_register_full_no_eexist :
    ¬ ∃ FILTER_MAX_ENTRIES : Nat, 0 < FILTER_MAX_ENTRIES ∧
      ∀ (nxs : nxs_t context_t) (errno : Nat) (name : String) (ops : filter_ops_t context_t),
        (∃ e ∈ nxs.filters, e.name = name) →
        (nxs_filter_register FILTER_MAX_ENTRIES nxs errno name ops).ret = -1 ∧
        (nxs_filter_register FILTER_MAX_ENTRIES nxs errno name ops).errno = EEXIST ∧
        (nxs_filter_register FILTER_MAX_ENTRIES nxs errno name ops).nxs = nxs := by
  rintro ⟨n, hpos, h⟩
  have hmem : ∃ e ∈ (full_registry context_t (sample_ops context_t) n).filters,
      e.name = "normalizer" := by
    refine ⟨{ name := "normalizer", ops := sample_ops context_t }, ?_, rfl⟩
    simp only [full_registry, List.mem_map, List.mem_range]
    exact ⟨0, hpos, by simp⟩
  have hfull : (full_registry context_t (sample_ops context_t) n).filters_count = n := by
    simp [full_registry, nxs_t.filters_count]
  have h1 := (h (full_registry context_t (sample_ops context_t) n) 0 "normalizer"
    (sample_ops context_t) hmem).2.1
  simp [nxs_filter_register, hfull, EEXIST] at h1

/-- C1 (amended): registering a name that is already registered returns `-1` and leaves
the registry as it is; `errno` is set to `EEXIST` when the registry is not full, and is
left as it was when the registry is full.  When `FILTER_MAX_ENTRIES` is at least 4,
registering "normalizer" after `filters_builtin_sysinit` on an empty registry fails with
`EEXIST`. -/
theorem nxs_filter_register_exists (FILTER_MAX_ENTRIES : Nat) :
    (∀ (κ : Type) (nxs : nxs_t κ) (errno : Nat) (name : String) (ops : filter_ops_t κ),
      (∃ e ∈ nxs.filters, e.name = name) →
      (nxs_filter_register FILTER_MAX_ENTRIES nxs errno name ops).ret = -1 ∧
      (nxs_filter_register FILTER_MAX_ENTRIES nxs errno name ops).nxs = nxs ∧
      (nxs.filters_count ≠ FILTER_MAX_ENTRIES →
        (nxs_filter_register FILTER_MAX_ENTRIES nxs errno name ops).errno = EEXIST) ∧
      (nxs.filters_count = FILTER_MAX_ENTRIES →
        (nxs_filter_register FILTER_MAX_ENTRIES nxs errno name ops).errno = errno)) ∧
    (∀ (L : libs_t) (swfile : Option (List (List UInt8))) (errno : Nat)
        (ops : filter_ops_t context_t), 4 ≤ FILTER_MAX_ENTRIES →
      (nxs_filter_register FILTER_MAX_ENTRIES
        (filters_builtin_sysinit L FILTER_MAX_ENTRIES swfile (filters_sysinit context_t)
          errno).nxs
        (filters_builtin_sysinit L FILTER_MAX_ENTRIES swfile (filters_sysinit context_t)
          errno).errno "normalizer" ops).ret = -1 ∧
      (nxs_filter_register FILTER_MAX_ENTRIES
        (filters_builtin_sysinit L FILTER_MAX_ENTRIES swfile (filters_sysinit context_t)
          errno).nxs
        (filters_builtin_sysinit L FILTER_MAX_ENTRIES swfile (filters_sysinit context_t)
          errno).errno "normalizer" ops).errno = EEXIST ∧
      (nxs_filter_register FILTER_MAX_ENTRIES
        (filters_builtin_sysinit L FILTER_MAX_ENTRIES swfile (filters_sysinit context_t)
          errno).nxs
        (filters_builtin_sysinit L FILTER_MAX_ENTRIES swfile (filters_sysinit context_t)
          errno).errno "normalizer" ops).nxs =
        (filters_builtin_sysinit L FILTER_MAX_ENTRIES swfile (filters_sysinit context_t)
          errno).nxs) := by
  have key : ∀ (κ : Type) (nxs : nxs_t κ) (errno : Nat) (name : String) (ops : filter_ops_t κ),
      (∃ e ∈ nxs.filters, e.name = name) →
      (nxs_filter_register FILTER_MAX_ENTRIES nxs errno name ops).ret = -1 ∧
      (nxs_filter_register FILTER_MAX_ENTRIES nxs errno name ops).nxs = nxs ∧
      (nxs.filters_count ≠ FILTER_MAX_ENTRIES →
        (nxs_filter_register FILTER_MAX_ENTRIES nxs errno name ops).errno = EEXIST) ∧
      (nxs.filters_count = FILTER_MAX_ENTRIES →
        (nxs_filter_register FILTER_MAX_ENTRIES nxs errno name ops).errno = errno) := by
    intro κ nxs errno name ops h
    have hl : (filter_lookup nxs name).isSome = true :=
      (filter_lookup_loop_isSome nxs.filters name).2 h
    by_cases hc : nxs.filters_count = FILTER_MAX_ENTRIES
    · simp [nxs_filter_register, hc]
    · simp [nxs_filter_register, hc, hl]
  refine ⟨key, ?_⟩
  intro L swfile errno ops h4
  have hf := filters_builtin_sysinit_filters L FILTER_MAX_ENTRIES swfile errno h4
  have hreg : ∃ e ∈ (filters_builtin_sysinit L FILTER_MAX_ENTRIES swfile
      (filters_sysinit context_t) errno).nxs.filters, e.name = "normalizer" := by
    rw [hf]
    exact ⟨_, List.mem_cons_self _ _, rfl⟩
  have hne : (filters_builtin_sysinit L FILTER_MAX_ENTRIES swfile
      (filters_sysinit context_t) errno).nxs.filters_count ≠ FILTER_MAX_ENTRIES := by
    simp only [nxs_t.filters_count, hf, List.length_cons, List.length_nil]
    omega
  have hk := key context_t _ (filters_builtin_sysinit L FILTER_MAX_ENTRIES swfile
      (filters_sysinit context_t) errno).errno "normalizer" ops hreg
  exact ⟨hk.1, hk.2.2.1 hne, hk.2.1⟩

/-- C1 (amended), at a sample input: `FILTER_MAX_ENTRIES = 8`, no stop-word file. -/
theorem nxs_filter_register_exists_witness :
    (4 : Nat) ≤ 8 ∧
    (nxs_filter_register 8
      (filters_builtin_sysinit sample_libs 8 none (filters_sysinit context_t) 0).nxs
      (filters_builtin_sysinit sample_libs 8 none (filters_sysinit context_t) 0).errno
      "normalizer" (sample_ops context_t)).errno = EEXIST :=
  ⟨by decide,
   ((nxs_filter_register_exists 8).2 sample_libs none 0 (sample_ops context_t)
      (by decide)).2.1⟩

/-- C2: a registry that holds `FILTER_MAX_ENTRIES` entries refuses every registration
with `-1` and stays as it is; hence no registry reached from the empty one by
registrations has more than `FILTER_MAX_ENTRIES` entries. -/
theorem nxs_filter_register_capacity (κ : Type) (FILTER_MAX_ENTRIES : Nat) :
    (∀ (nxs : nxs_t κ) (errno : Nat) (name : String) (ops : filter_ops_t κ),
      nxs.filters_count = FILTER_MAX_ENTRIES →
      (nxs_filter_register FILTER_MAX_ENTRIES nxs errno name ops).ret = -1 ∧
      (nxs_filter_register FILTER_MAX_ENTRIES nxs errno name ops).nxs = nxs) ∧
    (∀ nxs : nxs_t κ, registry_reachable FILTER_MAX_ENTRIES nxs →
      nxs.filters_count ≤ FILTER_MAX_ENTRIES) := by
  constructor
  · intro nxs errno name ops h
    simp [nxs_filter_register, h]
  · intro nxs h
    induction h with
    | init => simp [filters_sysinit, nxs_t.filters_count]
    | register nxs errno name ops _ ih =>
      by_cases hc : nxs.filters_count = FILTER_MAX_ENTRIES
      · simp [nxs_filter_register, hc]
      · by_cases hl : (filter_lookup nxs name).isSome = true
        · simpa [nxs_filter_register, hc, hl] using ih
        · have hlt : nxs.filters_count < FILTER_MAX_ENTRIES := lt_of_le_of_ne ih hc
          simp only [nxs_t.filters_count] at hlt hc
          simp [nxs_filter_register, nxs_t.filters_count, hc, hl]
          omega

/-- C2 at a sample input: with `FILTER_MAX_ENTRIES = 3` the registry that
`filters_builtin_sysinit` fills is full and refuses a fourth filter. -/
theorem nxs_filter_register_capacity_witness :
    (filters_builtin_sysinit sample_libs 3 none (filters_sysinit context_t) 0).nxs.filters_count
      = 3 ∧
    (nxs_filter_register 3
      (filters_builtin_sysinit sample_libs 3 none (filters_sysinit context_t) 0).nxs 0
      "fourth" (sample_ops context_t)).ret = -1 :=
  ⟨by simp [filters_builtin_sysinit, stopwords_sysinit, nxs_filter_register,
      nxs_t.filters_count, filters_sysinit, filter_lookup, filter_lookup_loop],
   ((nxs_filter_register_capacity context_t 3).1 _ 0 "fourth" (sample_ops context_t)
      (by simp [filters_builtin_sysinit, stopwords_sysinit, nxs_filter_register,
        nxs_t.filters_count, filters_sysinit, filter_lookup, filter_lookup_loop])).1⟩

/-- C3: on a registry that is not full, registering a name that no entry has returns 0,
raises the count by one, makes `filter_lookup` of that name return the ops given, and
leaves `filter_lookup` of every other name as it was. -/
theorem nxs_filter_register_success {κ : Type} (FILTER_MAX_ENTRIES : Nat) (nxs : nxs_t κ)
    (errno : Nat) (name : String) (ops : filter_ops_t κ)
    (hroom : nxs.filters_count < FILTER_MAX_ENTRIES)
    (hnew : ∀ e ∈ nxs.filters, e.name ≠ name) :
    (nxs_filter_register FILTER_MAX_ENTRIES nxs errno name ops).ret = 0 ∧
    (nxs_filter_register FILTER_MAX_ENTRIES nxs errno name ops).nxs.filters_count =
      nxs.filters_count + 1 ∧
    filter_lookup (nxs_filter_register FILTER_MAX_ENTRIES nxs errno name ops).nxs name =
      some ops ∧
    ∀ other : String, other ≠ name →
      filter_lookup (nxs_filter_register FILTER_MAX_ENTRIES nxs errno name ops).nxs other =
        filter_lookup nxs other := by
  have hc : nxs.filters_count ≠ FILTER_MAX_ENTRIES := Nat.ne_of_lt hroom
  have hl : filter_lookup nxs name = none :=
    (filter_lookup_loop_eq_none nxs.filters name).2 hnew
  have hl2 : filter_lookup_loop nxs.filters name = none := hl
  have hreg : nxs_filter_register FILTER_MAX_ENTRIES nxs errno name ops =
      { ret := 0, nxs := { filters := nxs.filters ++ [{ name := name, ops := ops }] },
        errno := errno } := by
    simp [nxs_filter_register, hc, hl]
  rw [hreg]
  refine ⟨rfl, ?_, ?_, ?_⟩
  · simp [nxs_t.filters_count]
  · simp [filter_lookup, filter_lookup_loop_append, hl2]
  · intro other hne
    have hne2 : ¬ name = other := fun h => hne h.symm
    simp only [filter_lookup, filter_lookup_loop_append, hne2, if_false]
    cases filter_lookup_loop nxs.filters other <;> rfl

/-- C3 at a sample input: the first registration on the empty registry. -/
theorem nxs_filter_register_success_witness :
    filter_lookup
      (nxs_filter_register 8 (filters_sysinit Unit) 0 "lower" (sample_ops Unit)).nxs "lower" =
      some (sample_ops Unit) :=
  (nxs_filter_register_success 8 (filters_sysinit Unit) 0 "lower" (sample_ops Unit)
    (by decide) (by simp [filters_sysinit])).2.2.1

/-! ## Filter pipelines -/

theorem filter_pipeline_run_loop_chain {κ : Type} (fs : List (filter_t κ)) :
    ∀ (buf out : strbuf_t), mutation_chain fs buf out →
      filter_pipeline_run_loop fs buf = some (FILT_MUTATION, out) := by
  induction fs with
  | nil =>
    intro buf out h
    simp only [mutation_chain] at h
    simp [filter_pipeline_run_loop, h]
  | cons f fs ih =>
    intro buf out h
    obtain ⟨ops, mid, h1, h2, h3⟩ := h
    simp [filter_pipeline_run_loop, h1, h2, ih mid out h3]

theorem filter_pipeline_run_loop_stop {κ : Type} (pre : List (filter_t κ)) :
    ∀ (filt : filter_t κ) (post : List (filter_t κ)) (ops : filter_ops_t κ)
      (buf mid out : strbuf_t) (action : filter_action_t),
      mutation_chain pre buf mid → filt.ops = some ops →
      ops.filter filt.context mid = some (action, out) → action ≠ FILT_MUTATION →
      filter_pipeline_run_loop (pre ++ filt :: post) buf = some (action, out) := by
  induction pre with
  | nil =>
    intro filt post ops buf mid out action h h1 h2 h3
    simp only [mutation_chain] at h
    subst h
    simp [filter_pipeline_run_loop, h1, h2, h3]
  | cons f pre ih =>
    intro filt post ops buf mid out action h h1 h2 h3
    obtain ⟨ops0, mid0, g1, g2, g3⟩ := h
    simp [filter_pipeline_run_loop, g1, g2, ih filt post ops mid0 mid out action g3 h1 h2 h3]

theorem filter_pipeline_run_loop_cases {κ : Type} (fs : List (filter_t κ)) :
    ∀ buf : strbuf_t,
      (∀ filt ∈ fs, ∃ ops, filt.ops = some ops ∧ ∀ b, (ops.filter filt.context b).isSome) →
      (∃ out, mutation_chain fs buf out ∧
        filter_pipeline_run_loop fs buf = some (FILT_MUTATION, out)) ∨
      (∃ pre filt post ops mid action out, fs = pre ++ filt :: post ∧
        mutation_chain pre buf mid ∧ filt.ops = some ops ∧
        ops.filter filt.context mid = some (action, out) ∧ action ≠ FILT_MUTATION ∧
        filter_pipeline_run_loop fs buf = some (action, out)) := by
  induction fs with
  | nil =>
    intro buf _
    exact Or.inl ⟨buf, by simp [mutation_chain], by simp [filter_pipeline_run_loop]⟩
  | cons f fs ih =>
    intro buf hall
    obtain ⟨ops, hops, hdef⟩ := hall f (List.mem_cons_self _ _)
    have hrest : ∀ filt ∈ fs, ∃ ops, filt.ops = some ops ∧
        ∀ b, (ops.filter filt.context b).isSome :=
      fun filt hf => hall filt (List.mem_cons_of_mem _ hf)
    obtain ⟨⟨action, mid⟩, hr⟩ := Option.isSome_iff_exists.1 (hdef buf)
    by_cases ha : action = FILT_MUTATION
    · subst ha
      rcases ih mid hrest with ⟨out, hc, hrun⟩ | ⟨pre, filt, post, ops1, m, a, out, h1, h2, h3, h4, h5, h6⟩
      · exact Or.inl ⟨out, ⟨ops, mid, hops, hr, hc⟩, by
          simp [filter_pipeline_run_loop, hops, hr, hrun]⟩
      · refine Or.inr ⟨f :: pre, filt, post, ops1, m, a, out, by simp [h1],
          ⟨ops, mid, hops, hr, h2⟩, h3, h4, h5, ?_⟩
        simp [filter_pipeline_run_loop, hops, hr, h6]
    · refine Or.inr ⟨[], f, fs, ops, buf, action, mid, by simp, by simp [mutation_chain],
        hops, hr, ha, ?_⟩
      simp [filter_pipeline_run_loop, hops, hr, ha]

/-- C4: `filter_pipeline_run` applies the filters in slot order.  When the filters before
a slot all return `MUTATION` and the filter of the slot returns another action, that
action is returned with the buffer as that filter left it, whatever the later slots hold;
when all filters return `MUTATION`, `MUTATION` is returned with the buffer as the last
filter left it; a pipeline without slots returns `MUTATION` and the buffer as given.
Every run of a pipeline whose slots are filled is one of the two. -/
theorem filter_pipeline_run_short_circuit (κ : Type) :
    (∀ (lang : List UInt8) (buf : strbuf_t),
      filter_pipeline_run ({ lang := lang, filters := [] } : filter_pipeline_t κ) buf =
        some (FILT_MUTATION, buf)) ∧
    (∀ (lang : List UInt8) (pre post : List (filter_t κ)) (filt : filter_t κ)
        (ops : filter_ops_t κ) (buf mid out : strbuf_t) (action : filter_action_t),
      mutation_chain pre buf mid → filt.ops = some ops →
      ops.filter filt.context mid = some (action, out) → action ≠ FILT_MUTATION →
      filter_pipeline_run { lang := lang, filters := pre ++ filt :: post } buf =
        some (action, out)) ∧
    (∀ (fp : filter_pipeline_t κ) (buf out : strbuf_t),
      mutation_chain fp.filters buf out →
      filter_pipeline_run fp buf = some (FILT_MUTATION, out)) ∧
    (∀ (fp : filter_pipeline_t κ) (buf : strbuf_t),
      (∀ filt ∈ fp.filters, ∃ ops, filt.ops = some ops ∧
        ∀ b, (ops.filter filt.context b).isSome) →
      (∃ out, mutation_chain fp.filters buf out ∧
        filter_pipeline_run fp buf = some (FILT_MUTATION, out)) ∨
      (∃ pre filt post ops mid action out, fp.filters = pre ++ filt :: post ∧
        mutation_chain pre buf mid ∧ filt.ops = some ops ∧
        ops.filter filt.context mid = some (action, out) ∧ action ≠ FILT_MUTATION ∧
        filter_pipeline_run fp buf = some (action, out))) := by
  refine ⟨?_, ?_, ?_, ?_⟩
  · intro lang buf
    simp [filter_pipeline_run, filter_pipeline_run_loop]
  · intro lang pre post filt ops buf mid out action h h1 h2 h3
    exact filter_pipeline_run_loop_stop pre filt post ops buf mid out action h h1 h2 h3
  · intro fp buf out h
    exact filter_pipeline_run_loop_chain fp.filters buf out h
  · intro fp buf h
    exact filter_pipeline_run_loop_cases fp.filters buf h

/-- C4 at a sample input: the normaliser keeps the token and the stop-word filter, given
a set that holds the token, drops it; the stemmer behind it is not reached. -/
theorem filter_pipeline_run_short_circuit_witness :
    filter_pipeline_run
      { lang := [101, 110],
        filters :=
          [{ context := some (context_t.utf8 1), ops := some (normalizer_ops sample_libs) }] ++
          { context := some (context_t.swmap (fun w => if w = [116, 104, 101] then some 1 else none)),
            ops := some (stopwords_ops rhashmap_create) } ::
          [{ context := none, ops := none }] }
      [116, 104, 101] = some (FILT_DROP, [116, 104, 101]) :=
  (filter_pipeline_run_short_circuit context_t).2.1 [101, 110]
    [{ context := some (context_t.utf8 1), ops := some (normalizer_ops sample_libs) }]
    [{ context := none, ops := none }]
    { context := some (context_t.swmap (fun w => if w = [116, 104, 101] then some 1 else none)),
      ops := some (stopwords_ops rhashmap_create) }
    (stopwords_ops rhashmap_create) [116, 104, 101] [116, 104, 101] [116, 104, 101] FILT_DROP
    ⟨normalizer_ops sample_libs, [116, 104, 101], rfl, rfl, rfl⟩ rfl
    (by simp [stopwords_ops, stopwords_filter, rhashmap_get]) (by decide)

theorem filter_pipeline_fill_ok_iff {κ : Type} (nxs : nxs_t κ) (lang : List UInt8)
    (names : List String) :
    (filter_pipeline_fill nxs lang names).2 = true ↔
      ∀ name ∈ names, ∃ ops, filter_lookup nxs name = some ops ∧
        ∀ create, ops.create = some create → (create lang).isSome = true := by
  induction names with
  | nil => simp [filter_pipeline_fill]
  | cons name rest ih =>
    cases hl : filter_lookup nxs name with
    | none => simp [filter_pipeline_fill, hl]
    | some ops =>
      cases hc : ops.create with
      | none => simp [filter_pipeline_fill, hl, hc, ih]
      | some create =>
        cases hr : create lang with
        | none => simp [filter_pipeline_fill, hl, hc, hr]
        | some ctx => simp [filter_pipeline_fill, hl, hc, hr, ih]

/-- The pipeline is returned exactly when every name is registered and every `create`
that is there yields a context for the saved language code. -/
theorem filter_pipeline_create_returns_iff {κ : Type} (nxs : nxs_t κ) (lang : List UInt8)
    (names : List String) :
    (∃ fp, filter_pipeline_create nxs lang names = some (some fp)) ↔
      ∀ name ∈ names, ∃ ops, filter_lookup nxs name = some ops ∧
        ∀ create, ops.create = some create →
          (create ((lang.takeWhile (fun b => b != 0)).take 2)).isSome = true := by
  rw [← filter_pipeline_fill_ok_iff]
  cases hf : (filter_pipeline_fill nxs ((lang.takeWhile (fun b => b != 0)).take 2) names).2 with
  | true => simp [filter_pipeline_create, hf]
  | false =>
    simp only [filter_pipeline_create, hf, Bool.false_eq_true, if_false, iff_false, not_exists]
    intro fp
    split <;> simp

/-- C5, the failing input: with the built-in filters registered, creating the pipeline
`normalizer, nosuch` has no result: the unwinding runs `filter_pipeline_destroy` over the
slot of the unknown name, whose `ops` is `NULL`, and dereferences it, where the claim has
the call return absent. -/
theorem filter_pipeline_create_unknown_filter_null_deref :
    filter_pipeline_create
      (filters_builtin_sysinit sample_libs 8 none (filters_sysinit context_t) 0).nxs
      (bytes "en") ["normalizer", "nosuch"] = none ∧
    filter_pipeline_create (filters_sysinit context_t) (bytes "en") ["nosuch"] = none := by
  constructor
  · simp [filter_pipeline_create, filter_pipeline_fill, filter_pipeline_destroy,
      filter_pipeline_destroy_loop, filters_builtin_sysinit, stopwords_sysinit,
      nxs_filter_register, nxs_t.filters_count, filters_sysinit, filter_lookup,
      filter_lookup_loop, normalizer_ops, normalizer_create, sample_libs]
  · simp [filter_pipeline_create, filter_pipeline_fill, filter_pipeline_destroy,
      filter_pipeline_destroy_loop, filters_sysinit, filter_lookup, filter_lookup_loop]

/-! ## The term dictionary -/

@[simp]
theorem idxterm_init_value (token : List UInt8) (offset : Nat) :
    (idxterm_init token offset).value = token := rfl

@[simp]
theorem idxterm_init_id (token : List UInt8) (offset : Nat) :
    (idxterm_init token offset).id = 0 := rfl

/-- C6: `idxterm_add_doc` with a term ID that `td_map` does not hold returns `-1` and
leaves the whole index (every term object, `term_map`, `td_map`, `term_list`) as it
is. -/
theorem idxterm_add_doc_unknown_term (idx : nxs_index_t) (term_id doc_id : Nat)
    (h : rhashmap_get idx.td_map term_id = none) :
    idxterm_add_doc idx term_id doc_id = some (-1, idx) := by
  simp [idxterm_add_doc, h]

/-- C6 at a sample input: the sample index holds the term ID 1 only. -/
theorem idxterm_add_doc_unknown_term_witness :
    idxterm_add_doc sample_index 7 1 = some (-1, sample_index) :=
  idxterm_add_doc_unknown_term sample_index 7 1 (by
    simp [sample_index, idxterm_assign, idxterm_create, idxterm_sysinit, rhashmap_put,
      rhashmap_get, rhashmap_create])

/-- What `idxterm_add_doc` does for a term ID that `td_map` maps to a live term: it
returns 0, the bitmap of that term gains `doc_id` reduced modulo `2^32` and nothing
else, and no other term object and no mapping changes. -/
theorem idxterm_add_doc_known_term (idx : nxs_index_t) (term_id doc_id term : Nat)
    (obj : idxterm_t) (h : rhashmap_get idx.td_map term_id = some term)
    (hobj : idx.terms term = some obj) :
    ∃ idx1, idxterm_add_doc idx term_id doc_id = some (0, idx1) ∧
      idx1.terms term = some { obj with doc_bitmap := insert (doc_id % 2 ^ 32) obj.doc_bitmap } ∧
      (∀ a, a ≠ term → idx1.terms a = idx.terms a) ∧
      idx1.term_map = idx.term_map ∧ idx1.td_map = idx.td_map ∧
      idx1.term_list = idx.term_list := by
  let obj1 : idxterm_t := { obj with doc_bitmap := roaring_bitmap_add obj.doc_bitmap doc_id }
  refine ⟨{ idx with terms := fun a => if a = term then some obj1 else idx.terms a },
    by simp [idxterm_add_doc, h, hobj, obj1], ?_, ?_, rfl, rfl, rfl⟩
  · simp [roaring_bitmap_add, obj1]
  · intro a ha
    simp [ha]

/-- C7, the failing input: in the sample index (term "dog", ID 1, empty bitmap),
`idxterm_add_doc(1, 4294967297)` returns 0 and the bitmap becomes `{1}`: the document
`2^32 + 1` that was added is not a member, and document 1, which was not added, is. -/
theorem idxterm_add_doc_truncates_doc_id :
    ∃ idx1 obj, idxterm_add_doc sample_index 1 4294967297 = some (0, idx1) ∧
      idx1.terms 1 = some obj ∧ obj.doc_bitmap = {1} ∧
      4294967297 ∉ obj.doc_bitmap ∧ 1 ∈ obj.doc_bitmap := by
  have h1 : rhashmap_get sample_index.td_map 1 = some 1 := by
    simp [sample_index, idxterm_assign, idxterm_create, idxterm_sysinit, rhashmap_put,
      rhashmap_get, rhashmap_create]
  have h2 : sample_index.terms 1 =
      some { id := 1, offset := 0, doc_bitmap := ∅, value := [100, 111, 103] } := by
    simp [sample_index, idxterm_assign, idxterm_create, idxterm_sysinit, rhashmap_put,
      rhashmap_get, rhashmap_create, roaring_bitmap_create, idxterm_init]
  obtain ⟨idx1, g1, g2, _⟩ := idxterm_add_doc_known_term sample_index 1 4294967297 1 _ h1 h2
  refine ⟨idx1, _, g1, g2, ?_, ?_, ?_⟩ <;> simp

theorem idxterm_create_eq_of_absent (idx : nxs_index_t) (term : Nat) (token : List UInt8)
    (offset : Nat) (h : rhashmap_get idx.term_map token = none) :
    idxterm_create idx term token offset =
      { ret := some term,
        idx := { idx with
          terms := fun a => if a = term then some (idxterm_init token offset) else idx.terms a,
          term_map := fun k => if k = token then some term else idx.term_map k,
          term_list := idx.term_list ++ [term] } } := by
  simp only [rhashmap_get] at h
  simp [idxterm_create, rhashmap_put, h]

theorem idxterm_create_eq_of_present (idx : nxs_index_t) (term : Nat) (token : List UInt8)
    (offset : Nat) (orig : Nat) (h : rhashmap_get idx.term_map token = some orig)
    (hne : orig ≠ term) (hfresh : idx.terms term = none) :
    idxterm_create idx term token offset = { ret := none, idx := idx } := by
  simp only [rhashmap_get] at h
  have hheap : (fun a => if a = term then none else
      if a = term then some (idxterm_init token offset) else idx.terms a) = idx.terms := by
    funext a
    by_cases ha : a = term
    · simp [ha, hfresh]
    · simp [ha]
  simp [idxterm_create, rhashmap_put, h, hne, hheap]

theorem create_reachable_inv (idx : nxs_index_t) (h : create_reachable idx) :
    idx.term_list.Nodup ∧
    ∀ a ∈ idx.term_list, ∃ obj, idx.terms a = some obj ∧
      rhashmap_get idx.term_map obj.value = some a := by
  induction h with
  | init => simp [idxterm_sysinit]
  | create idx term token offset _ hfresh ih =>
    obtain ⟨hnd, hlive⟩ := ih
    have hnotin : term ∉ idx.term_list := by
      intro hm
      obtain ⟨obj, ho, _⟩ := hlive term hm
      rw [hfresh] at ho
      exact Option.noConfusion ho
    have hne : ∀ a ∈ idx.term_list, a ≠ term := fun a ha h => hnotin (h ▸ ha)
    cases hget : rhashmap_get idx.term_map token with
    | none =>
      rw [idxterm_create_eq_of_absent idx term token offset hget]
      refine ⟨?_, ?_⟩
      · exact List.nodup_append.2 ⟨hnd, List.nodup_singleton _, by
          intro a ha hb
          exact hne a ha (List.mem_singleton.1 hb)⟩
      · intro a ha
        rcases List.mem_append.1 ha with ha | ha
        · obtain ⟨obj, ho, hm⟩ := hlive a ha
          refine ⟨obj, by simp [hne a ha, ho], ?_⟩
          have hv : obj.value ≠ token := by
            intro hv
            rw [hv, hget] at hm
            exact Option.noConfusion hm
          simpa [rhashmap_get, hv] using hm
        · have hat : a = term := List.mem_singleton.1 ha
          subst hat
          exact ⟨idxterm_init token offset, by simp, by simp [rhashmap_get, idxterm_init]⟩
    | some orig =>
      by_cases ho : orig = term
      · subst ho
        have hget1 : idx.term_map token = some orig := hget
        have hcr : idxterm_create idx orig token offset =
            { ret := some orig,
              idx := { idx with
                terms := fun a => if a = orig then some (idxterm_init token offset)
                  else idx.terms a,
                term_list := idx.term_list ++ [orig] } } := by
          simp [idxterm_create, rhashmap_put, hget1]
        rw [hcr]
        refine ⟨?_, ?_⟩
        · exact List.nodup_append.2 ⟨hnd, List.nodup_singleton _, by
            intro a ha hb
            exact hne a ha (List.mem_singleton.1 hb)⟩
        · intro a ha
          rcases List.mem_append.1 ha with ha | ha
          · obtain ⟨obj, ho, hm⟩ := hlive a ha
            exact ⟨obj, by simp [hne a ha, ho], hm⟩
          · have hat : a = orig := List.mem_singleton.1 ha
            subst hat
            exact ⟨idxterm_init token offset, by simp, hget⟩
      · rw [idxterm_create_eq_of_present idx term token offset orig hget ho hfresh]
        exact ⟨hnd, hlive⟩

/-- C9: for a value under which `term_map` holds a live term, `idxterm_create` returns
absent and leaves the index as it is, so `idxterm_lookup` still returns that term and
the term object is untouched; and in every state reached from the empty dictionary by
`idxterm_create`, `term_list` lists live terms without repetition and no two of them
have the same value. -/
theorem idxterm_create_duplicate :
    (∀ (idx : nxs_index_t) (term : Nat) (token : List UInt8) (offset orig : Nat)
        (obj : idxterm_t), idx.terms term = none → idxterm_lookup idx token = some orig →
        idx.terms orig = some obj →
      (idxterm_create idx term token offset).ret = none ∧
      (idxterm_create idx term token offset).idx = idx ∧
      idxterm_lookup (idxterm_create idx term token offset).idx token = some orig ∧
      (idxterm_create idx term token offset).idx.terms orig = some obj) ∧
    (∀ idx : nxs_index_t, create_reachable idx →
      idx.term_list.Nodup ∧
      (∀ a ∈ idx.term_list, ∃ obj, idx.terms a = some obj) ∧
      ∀ a ∈ idx.term_list, ∀ b ∈ idx.term_list, ∀ oa ob : idxterm_t,
        idx.terms a = some oa → idx.terms b = some ob → oa.value = ob.value → a = b) := by
  constructor
  · intro idx term token offset orig obj hfresh hl ho
    have hne : orig ≠ term := by
      intro h
      rw [h, hfresh] at ho
      exact Option.noConfusion ho
    rw [idxterm_create_eq_of_present idx term token offset orig hl hne hfresh]
    exact ⟨rfl, rfl, hl, ho⟩
  · intro idx h
    obtain ⟨hnd, hlive⟩ := create_reachable_inv idx h
    refine ⟨hnd, fun a ha => ?_, ?_⟩
    · obtain ⟨obj, ho, _⟩ := hlive a ha
      exact ⟨obj, ho⟩
    · intro a ha b hb oa ob hoa hob hv
      obtain ⟨oa1, h1, m1⟩ := hlive a ha
      obtain ⟨ob1, h2, m2⟩ := hlive b hb
      rw [hoa] at h1
      rw [hob] at h2
      cases h1
      cases h2
      rw [hv, m2] at m1
      exact (Option.some.inj m1).symm

/-- C9 at a sample input: creating "dog" again in the sample index. -/
theorem idxterm_create_duplicate_witness :
    (idxterm_create sample_index 2 [100, 111, 103] 8).ret = none ∧
    (idxterm_create sample_index 2 [100, 111, 103] 8).idx = sample_index :=
  ⟨(idxterm_create_duplicate.1 sample_index 2 [100, 111, 103] 8 1
      { id := 1, offset := 0, doc_bitmap := ∅, value := [100, 111, 103] }
      (by simp [sample_index, idxterm_assign, idxterm_create, idxterm_sysinit, rhashmap_put,
        rhashmap_get, rhashmap_create])
      (by simp [sample_index, idxterm_assign, idxterm_create, idxterm_sysinit, rhashmap_put,
        rhashmap_get, rhashmap_create, idxterm_lookup])
      (by simp [sample_index, idxterm_assign, idxterm_create, idxterm_sysinit, rhashmap_put,
        rhashmap_get, rhashmap_create, roaring_bitmap_create, idxterm_init])).1,
   (idxterm_create_duplicate.1 sample_index 2 [100, 111, 103] 8 1
      { id := 1, offset := 0, doc_bitmap := ∅, value := [100, 111, 103] }
      (by simp [sample_index, idxterm_assign, idxterm_create, idxterm_sysinit, rhashmap_put,
        rhashmap_get, rhashmap_create])
      (by simp [sample_index, idxterm_assign, idxterm_create, idxterm_sysinit, rhashmap_put,
        rhashmap_get, rhashmap_create, idxterm_lookup])
      (by simp [sample_index, idxterm_assign, idxterm_create, idxterm_sysinit, rhashmap_put,
        rhashmap_get, rhashmap_create, roaring_bitmap_create, idxterm_init])).2.1⟩

/-! ### Dictionary coherence -/

theorem take_strlen_of_no_nul (value : List UInt8) (h : (0 : UInt8) ∉ value) :
    value.take (strlen value) = value := by
  have hall : value.takeWhile (fun b => b != 0) = value := by
    rw [List.takeWhile_eq_self_iff]
    intro b hb
    have hne : b ≠ 0 := fun h0 => h (h0 ▸ hb)
    simpa using hne
  simp [strlen, hall]

theorem dictionary_inv_sysinit : dictionary_inv idxterm_sysinit := by
  constructor <;> simp [idxterm_sysinit, rhashmap_create]

theorem dictionary_inv_create (idx : nxs_index_t) (term : Nat) (token : List UInt8)
    (offset : Nat) (hinv : dictionary_inv idx) (hfresh : idx.terms term = none)
    (hnul : (0 : UInt8) ∉ token) :
    dictionary_inv (idxterm_create idx term token offset).idx := by
  have hnotin : term ∉ idx.term_list := by
    intro hm
    obtain ⟨obj, ho, _⟩ := hinv.live term hm
    rw [hfresh] at ho
    exact Option.noConfusion ho
  have hne : ∀ a ∈ idx.term_list, a ≠ term := fun a ha h => hnotin (h ▸ ha)
  cases hget : rhashmap_get idx.term_map token with
  | some orig =>
    have horig : orig ≠ term := hne orig (hinv.term_map_back token orig hget).1
    rw [idxterm_create_eq_of_present idx term token offset orig hget horig hfresh]
    exact hinv
  | none =>
    have hget1 : idx.term_map token = none := hget
    rw [idxterm_create_eq_of_absent idx term token offset hget]
    constructor
    · exact List.nodup_append.2 ⟨hinv.nodup, List.nodup_singleton _, by
        intro a ha hb
        exact hne a ha (List.mem_singleton.1 hb)⟩
    · intro a ha
      rcases List.mem_append.1 ha with ha | ha
      · obtain ⟨obj, ho, hz, hm, hd⟩ := hinv.live a ha
        have hv : obj.value ≠ token := by
          intro hv
          rw [hv, hget1] at hm
          exact Option.noConfusion hm
        exact ⟨obj, by simp [hne a ha, ho], hz, by simp [hv, hm], hd⟩
      · have hat : a = term := List.mem_singleton.1 ha
        subst hat
        exact ⟨idxterm_init token offset, by simp, by simpa using hnul, by simp, by simp⟩
    · intro v t hvt
      by_cases hv : v = token
      · subst hv
        have ht : t = term := by simpa using hvt.symm
        subst ht
        exact ⟨by simp, idxterm_init v offset, by simp, by simp⟩
      · have hvt1 : idx.term_map v = some t := by simpa [hv] using hvt
        obtain ⟨hm, obj, ho, hval⟩ := hinv.term_map_back v t hvt1
        exact ⟨by simp [hm], obj, by simp [hne t hm, ho], hval⟩
    · intro i t hit
      obtain ⟨hi, hm, obj, ho, hid⟩ := hinv.td_map_back i t hit
      exact ⟨hi, by simp [hm], obj, by simp [hne t hm, ho], hid⟩

theorem dictionary_inv_update (idx : nxs_index_t) (term : Nat) (obj obj1 : idxterm_t)
    (hinv : dictionary_inv idx) (hobj : idx.terms term = some obj)
    (hv : obj1.value = obj.value) (hi : obj1.id = obj.id) :
    dictionary_inv
      { idx with terms := fun a => if a = term then some obj1 else idx.terms a } := by
  constructor
  · exact hinv.nodup
  · intro a ha
    obtain ⟨oa, ho, hz, hm, hd⟩ := hinv.live a ha
    by_cases hat : a = term
    · subst hat
      rw [hobj] at ho
      cases ho
      exact ⟨obj1, by simp, by rw [hv]; exact hz, by rw [hv]; exact hm, by rw [hi]; exact hd⟩
    · exact ⟨oa, by simp [hat, ho], hz, hm, hd⟩
  · intro v t hvt
    obtain ⟨hm, ot, ho, hval⟩ := hinv.term_map_back v t hvt
    refine ⟨hm, ?_⟩
    by_cases hat : t = term
    · subst hat
      rw [hobj] at ho
      cases ho
      exact ⟨obj1, by simp, by rw [hv]; exact hval⟩
    · exact ⟨ot, by simp [hat, ho], hval⟩
  · intro i t hit
    obtain ⟨hi0, hm, ot, ho, hid⟩ := hinv.td_map_back i t hit
    refine ⟨hi0, hm, ?_⟩
    by_cases hat : t = term
    · subst hat
      rw [hobj] at ho
      cases ho
      exact ⟨obj1, by simp, by rw [hi]; exact hid⟩
    · exact ⟨ot, by simp [hat, ho], hid⟩

theorem dictionary_inv_add_doc (idx : nxs_index_t) (term_id doc_id : Nat)
    (r : Int × nxs_index_t) (hinv : dictionary_inv idx)
    (h : idxterm_add_doc idx term_id doc_id = some r) : dictionary_inv r.2 := by
  cases hget : rhashmap_get idx.td_map term_id with
  | none =>
    simp only [idxterm_add_doc, hget, Option.some.injEq] at h
    rw [← h]
    exact hinv
  | some term =>
    cases hobj : idx.terms term with
    | none => simp [idxterm_add_doc, hget, hobj] at h
    | some obj =>
      simp only [idxterm_add_doc, hget, hobj, Option.some.injEq] at h
      rw [← h]
      exact dictionary_inv_update idx term obj _ hinv hobj rfl rfl

theorem dictionary_inv_assign (idx idx1 : nxs_index_t) (term term_id : Nat) (obj : idxterm_t)
    (hinv : dictionary_inv idx) (hobj : idx.terms term = some obj)
    (hmem : term ∈ idx.term_list)
    (hid : obj.id = 0) (hne : term_id ≠ 0) (hfree : rhashmap_get idx.td_map term_id = none)
    (h : idxterm_assign idx term term_id = some idx1) : dictionary_inv idx1 := by
  have hfree1 : idx.td_map term_id = none := hfree
  simp only [idxterm_assign, hobj, rhashmap_put, hfree1, Option.some.injEq] at h
  rw [← h]
  obtain ⟨obj0, ho0, hz0, hm0, _⟩ := hinv.live term hmem
  rw [hobj] at ho0
  cases ho0
  constructor
  · exact hinv.nodup
  · intro a ha
    by_cases hat : a = term
    · subst hat
      exact ⟨{ obj with id := term_id }, by simp, hz0, hm0, by simp⟩
    · obtain ⟨oa, ho, hz, hm, hd⟩ := hinv.live a ha
      refine ⟨oa, by simp [hat, ho], hz, hm, ?_⟩
      intro hnz
      have hda := hd hnz
      have hk : oa.id ≠ term_id := by
        intro hk
        rw [hk, hfree1] at hda
        exact Option.noConfusion hda
      simp [hk, hda]
  · intro v t hvt
    obtain ⟨hm, ot, ho, hval⟩ := hinv.term_map_back v t hvt
    refine ⟨hm, ?_⟩
    by_cases hat : t = term
    · subst hat
      rw [hobj] at ho
      cases ho
      exact ⟨{ obj with id := term_id }, by simp, hval⟩
    · exact ⟨ot, by simp [hat, ho], hval⟩
  · intro i t hit
    by_cases hi : i = term_id
    · subst hi
      have ht : t = term := by simpa using hit.symm
      subst ht
      exact ⟨hne, hmem, { obj with id := i }, by simp, rfl⟩
    · have hit1 : idx.td_map i = some t := by simpa [hi] using hit
      obtain ⟨hi0, hm, ot, ho, hidt⟩ := hinv.td_map_back i t hit1
      refine ⟨hi0, hm, ?_⟩
      have hat : t ≠ term := by
        intro hat
        subst hat
        rw [hobj] at ho
        cases ho
        exact hi0 (hidt ▸ hid)
      exact ⟨ot, by simp [hat, ho], hidt⟩

theorem dictionary_inv_destroy (idx idx1 : nxs_index_t) (term : Nat)
    (hinv : dictionary_inv idx) (hmem : term ∈ idx.term_list)
    (h : idxterm_destroy idx term = some idx1) : dictionary_inv idx1 := by
  obtain ⟨obj, hobj, hz, hm, hd⟩ := hinv.live term hmem
  simp only [idxterm_destroy, hobj, take_strlen_of_no_nul obj.value hz, Option.some.injEq] at h
  rw [← h]
  have hmem_erase : ∀ a, a ∈ idx.term_list.erase term ↔ a ≠ term ∧ a ∈ idx.term_list :=
    fun a => hinv.nodup.mem_erase_iff
  constructor
  · exact hinv.nodup.erase term
  · intro a ha
    obtain ⟨hat, ha1⟩ := (hmem_erase a).1 ha
    obtain ⟨oa, ho, hza, hma, hda⟩ := hinv.live a ha1
    have hval : oa.value ≠ obj.value := by
      intro hv
      rw [hv, hm] at hma
      exact hat (Option.some.inj hma).symm
    refine ⟨oa, by simp [hat, ho], hza, by simp [rhashmap_del, hval, hma], ?_⟩
    intro hnz
    have hda1 := hda hnz
    by_cases hid : obj.id = 0
    · simp [hid, hda1]
    · have hk : oa.id ≠ obj.id := by
        intro hk
        rw [hk, hd hid] at hda1
        exact hat (Option.some.inj hda1).symm
      simp [hid, rhashmap_del, hk, hda1]
  · intro v t hvt
    have hv : v ≠ obj.value := by
      intro hv
      simp [rhashmap_del, hv] at hvt
    have hvt1 : idx.term_map v = some t := by simpa [rhashmap_del, hv] using hvt
    obtain ⟨hmt, ot, ho, hval⟩ := hinv.term_map_back v t hvt1
    have hat : t ≠ term := by
      intro hat
      subst hat
      rw [hobj] at ho
      cases ho
      exact hv hval.symm
    exact ⟨(hmem_erase t).2 ⟨hat, hmt⟩, ot, by simp [hat, ho], hval⟩
  · intro i t hit
    by_cases hid : obj.id = 0
    · have hit1 : idx.td_map i = some t := by simpa [hid] using hit
      obtain ⟨hi0, hmt, ot, ho, hidt⟩ := hinv.td_map_back i t hit1
      have hat : t ≠ term := by
        intro hat
        subst hat
        rw [hobj] at ho
        cases ho
        exact hi0 (hidt ▸ hid)
      exact ⟨hi0, (hmem_erase t).2 ⟨hat, hmt⟩, ot, by simp [hat, ho], hidt⟩
    · have hi : i ≠ obj.id := by
        intro hi
        simp [hid, rhashmap_del, hi] at hit
      have hit1 : idx.td_map i = some t := by simpa [hid, rhashmap_del, hi] using hit
      obtain ⟨hi0, hmt, ot, ho, hidt⟩ := hinv.td_map_back i t hit1
      have hat : t ≠ term := by
        intro hat
        subst hat
        rw [hobj] at ho
        cases ho
        exact hi hidt.symm
      exact ⟨hi0, (hmem_erase t).2 ⟨hat, hmt⟩, ot, by simp [hat, ho], hidt⟩

/-- Dictionary coherence holds in every state reached from the empty dictionary when
`idxterm_create` is called with values that have no NUL byte. -/
theorem dictionary_coherent_of_no_nul (idx : nxs_index_t)
    (h : index_reachable (fun value => (0 : UInt8) ∉ value) idx) :
    dictionary_inv idx ∧ dictionary_coherent idx := by
  have hinv : dictionary_inv idx := by
    induction h with
    | init => exact dictionary_inv_sysinit
    | create idx term token offset _ hfresh hok ih =>
      exact dictionary_inv_create idx term token offset ih hfresh hok
    | assign idx idx1 term term_id obj _ hmem hobj hid hne hfree hcall ih =>
      exact dictionary_inv_assign idx idx1 term term_id obj ih hobj hmem hid hne hfree hcall
    | add_doc idx term_id doc_id r _ hcall ih =>
      exact dictionary_inv_add_doc idx term_id doc_id r ih hcall
    | resolve_tokens idx tokens out stage _ _ ih => exact ih
    | destroy idx idx1 term _ hmem hcall ih =>
      exact dictionary_inv_destroy idx idx1 term ih hmem hcall
  refine ⟨hinv, ?_⟩
  intro term hmem
  obtain ⟨obj, ho, _, hm, hd⟩ := hinv.live term hmem
  exact ⟨obj, ho, hm, hd⟩

/-- C10, the failing input: create the term "ab", create the term of the five bytes
"ab", NUL, "cd", destroy the second.  `idxterm_destroy` takes the key length from
`strlen`, so it removes the entry "ab" of `term_map`, which belongs to the first term:
the first term is still in `term_list` and `term_map` holds nothing under its value.
Dictionary coherence is not an invariant of the reachable states. -/
theorem dictionary_coherence_broken_by_destroy :
    ¬ ∀ idx : nxs_index_t, index_reachable (fun _ => True) idx → dictionary_coherent idx := by
  intro H
  have r1 : index_reachable (fun _ => True) (idxterm_create idxterm_sysinit 1 [97, 98] 0).idx :=
    index_reachable.create idxterm_sysinit 1 [97, 98] 0 index_reachable.init rfl trivial
  have r2 : index_reachable (fun _ => True) nul_index :=
    index_reachable.create _ 2 [97, 98, 0, 99, 100] 8 r1 (by rfl) trivial
  have hd : idxterm_destroy nul_index 2 = some nul_index_destroyed := by rfl
  have r3 : index_reachable (fun _ => True) nul_index_destroyed :=
    index_reachable.destroy nul_index nul_index_destroyed 2 r2 (by decide) hd
  obtain ⟨obj, ho, hm, _⟩ := H nul_index_destroyed r3 1 (by decide)
  have hv : (nul_index_destroyed.terms 1).map (fun o => o.value) = some [97, 98] := by decide
  rw [ho] at hv
  have hv1 : obj.value = [97, 98] := by simpa using hv
  rw [hv1] at hm
  have hnone : rhashmap_get nul_index_destroyed.term_map [97, 98] = none := by decide
  rw [hnone] at hm
  exact Option.noConfusion hm

/-! ## Token resolution -/

theorem idxterm_resolve_loop_stage (idx : nxs_index_t) (l : List token_t) :
    idxterm_resolve_loop idx true l =
      ((l.filter (fun t => (idxterm_lookup idx t.buffer).isSome)).map
          (fun t => { t with idxterm := idxterm_lookup idx t.buffer }),
       (l.filter (fun t => (idxterm_lookup idx t.buffer).isNone)).map
          (fun t => { t with idxterm := none })) := by
  induction l with
  | nil => simp [idxterm_resolve_loop]
  | cons t l ih =>
    cases h : idxterm_lookup idx t.buffer with
    | none => simp [idxterm_resolve_loop, h, ih]
    | some term => simp [idxterm_resolve_loop, h, ih]

theorem idxterm_resolve_loop_no_stage (idx : nxs_index_t) (l : List token_t) :
    idxterm_resolve_loop idx false l =
      (l.map (fun t => { t with idxterm := idxterm_lookup idx t.buffer }), []) := by
  induction l with
  | nil => simp [idxterm_resolve_loop]
  | cons t l ih => simp [idxterm_resolve_loop, ih]

/-- C11, as stated, does not hold: with `stage == false` a token whose bytes are not in
`term_map` stays in the active list, and its term pointer is set to `NULL`. -/
theorem idxterm_resolve_tokens_no_stage_null_term :
    ¬ ∀ (idx : nxs_index_t) (tokens : tokenset_t) (stage : Bool),
      ∀ t ∈ (idxterm_resolve_tokens idx tokens stage).list, t.idxterm ≠ none := by
  intro h
  have h1 := h idxterm_sysinit
    { list := [{ buffer := [100, 111, 103], idxterm := none }], staging := [] } false
    { buffer := [100, 111, 103], idxterm := none }
    (by simp [idxterm_resolve_tokens, idxterm_resolve_loop, idxterm_lookup, rhashmap_get,
      idxterm_sysinit, rhashmap_create])
  exact h1 rfl

/-- C11 (amended): after `idxterm_resolve_tokens` with `stage == true` every token of
the active list has a non-null term pointer, the term `idxterm_lookup` finds for its
bytes, and the active list is the tokens that were found, in their order.  With
`stage == false` every token stays in the active list, in its place, nothing is added to
the staging list, and the term pointer of each token is set to what `idxterm_lookup`
gives for its bytes, which is `NULL` for bytes that are not in `term_map`: such a token
is in the active list afterwards with a null term pointer. -/
theorem idxterm_resolve_tokens_active_terms (idx : nxs_index_t) (tokens : tokenset_t) :
    (∀ t ∈ (idxterm_resolve_tokens idx tokens true).list,
      t.idxterm ≠ none ∧ t.idxterm = idxterm_lookup idx t.buffer) ∧
    (∀ t ∈ (idxterm_resolve_tokens idx tokens false).list,
      t.idxterm = idxterm_lookup idx t.buffer) ∧
    (idxterm_resolve_tokens idx tokens false).list =
      tokens.list.map (fun t => { t with idxterm := idxterm_lookup idx t.buffer }) ∧
    (idxterm_resolve_tokens idx tokens false).staging = tokens.staging ∧
    (∀ t ∈ tokens.list, idxterm_lookup idx t.buffer = none →
      ({ t with idxterm := none } : token_t) ∈
        (idxterm_resolve_tokens idx tokens false).list) ∧
    (idxterm_resolve_tokens idx tokens true).list =
      (tokens.list.filter (fun t => (idxterm_lookup idx t.buffer).isSome)).map
        (fun t => { t with idxterm := idxterm_lookup idx t.buffer }) := by
  refine ⟨?_, ?_, ?_, ?_, ?_, ?_⟩
  · intro t ht
    simp only [idxterm_resolve_tokens, idxterm_resolve_loop_stage, List.mem_map,
      List.mem_filter] at ht
    obtain ⟨t0, ⟨_, hs⟩, rfl⟩ := ht
    refine ⟨?_, rfl⟩
    intro hn
    simp only at hn
    rw [hn] at hs
    exact Bool.noConfusion hs
  · intro t ht
    simp only [idxterm_resolve_tokens, idxterm_resolve_loop_no_stage, List.mem_map] at ht
    obtain ⟨t0, _, rfl⟩ := ht
    rfl
  · simp [idxterm_resolve_tokens, idxterm_resolve_loop_no_stage]
  · simp [idxterm_resolve_tokens, idxterm_resolve_loop_no_stage]
  · intro t ht hnone
    simp only [idxterm_resolve_tokens, idxterm_resolve_loop_no_stage, List.mem_map]
    exact ⟨t, ht, by rw [hnone]⟩
  · simp [idxterm_resolve_tokens, idxterm_resolve_loop_stage]

/-- C11 (amended), at a sample input: in the sample index, with `stage == true` the
token "dog" resolves to the term at address 1; with `stage == false` the token "fox",
which has no term, stays in the active list with a null term pointer. -/
theorem idxterm_resolve_tokens_active_terms_witness :
    ({ buffer := [100, 111, 103], idxterm := some 1 } : token_t) ∈
      (idxterm_resolve_tokens sample_index
        { list := [{ buffer := [102, 111, 120], idxterm := none },
                   { buffer := [100, 111, 103], idxterm := none }],
          staging := [] } true).list ∧
    ({ buffer := [100, 111, 103], idxterm := some 1 } : token_t).idxterm ≠ none ∧
    idxterm_lookup sample_index [102, 111, 120] = none ∧
    ({ buffer := [102, 111, 120], idxterm := none } : token_t) ∈
      (idxterm_resolve_tokens sample_index
        { list := [{ buffer := [102, 111, 120], idxterm := none },
                   { buffer := [100, 111, 103], idxterm := none }],
          staging := [] } false).list :=
  have hm : ({ buffer := [100, 111, 103], idxterm := some 1 } : token_t) ∈
      (idxterm_resolve_tokens sample_index
        { list := [{ buffer := [102, 111, 120], idxterm := none },
                   { buffer := [100, 111, 103], idxterm := none }],
          staging := [] } true).list := by
    simp [idxterm_resolve_tokens, idxterm_resolve_loop, idxterm_lookup, rhashmap_get,
      sample_index, idxterm_assign, idxterm_create, idxterm_sysinit, rhashmap_put,
      rhashmap_create]
  have hfox : idxterm_lookup sample_index [102, 111, 120] = none := by
    simp [sample_index, idxterm_assign, idxterm_create, idxterm_sysinit, rhashmap_put,
      rhashmap_get, rhashmap_create, idxterm_lookup]
  ⟨hm, ((idxterm_resolve_tokens_active_terms sample_index _).1 _ hm).1, hfox,
    (idxterm_resolve_tokens_active_terms sample_index
      { list := [{ buffer := [102, 111, 120], idxterm := none },
                 { buffer := [100, 111, 103], idxterm := none }],
        staging := [] }).2.2.2.2.1 { buffer := [102, 111, 120], idxterm := none }
      (by simp) hfox⟩

/-- C18: `idxterm_resolve_tokens` is a stable partition.  With `stage == true` the active
list becomes the tokens whose bytes are in `term_map`, in their order, each with the term
`idxterm_lookup` finds, and the staging list becomes the staging list before followed by
the other tokens, in their order, each with a null term pointer.  With `stage == false`
the active list keeps its tokens and their order, each with the term pointer set to what
`idxterm_lookup` gives, and the staging list is as before.  No buffer changes. -/
theorem idxterm_resolve_tokens_partition (idx : nxs_index_t) (tokens : tokenset_t) :
    (idxterm_resolve_tokens idx tokens true).list =
      (tokens.list.filter (fun t => (idxterm_lookup idx t.buffer).isSome)).map
        (fun t => { t with idxterm := idxterm_lookup idx t.buffer }) ∧
    (idxterm_resolve_tokens idx tokens true).staging =
      tokens.staging ++
        (tokens.list.filter (fun t => (idxterm_lookup idx t.buffer).isNone)).map
          (fun t => { t with idxterm := none }) ∧
    (idxterm_resolve_tokens idx tokens false).list =
      tokens.list.map (fun t => { t with idxterm := idxterm_lookup idx t.buffer }) ∧
    (idxterm_resolve_tokens idx tokens false).staging = tokens.staging ∧
    (idxterm_resolve_tokens idx tokens true).list.map (fun t => t.buffer) =
      (tokens.list.filter (fun t => (idxterm_lookup idx t.buffer).isSome)).map
        (fun t => t.buffer) ∧
    (idxterm_resolve_tokens idx tokens true).staging.map (fun t => t.buffer) =
      tokens.staging.map (fun t => t.buffer) ++
        (tokens.list.filter (fun t => (idxterm_lookup idx t.buffer).isNone)).map
          (fun t => t.buffer) ∧
    (idxterm_resolve_tokens idx tokens false).list.map (fun t => t.buffer) =
      tokens.list.map (fun t => t.buffer) := by
  refine ⟨?_, ?_, ?_, ?_, ?_, ?_, ?_⟩
  · simp [idxterm_resolve_tokens, idxterm_resolve_loop_stage]
  · simp [idxterm_resolve_tokens, idxterm_resolve_loop_stage]
  · simp [idxterm_resolve_tokens, idxterm_resolve_loop_no_stage]
  · simp [idxterm_resolve_tokens, idxterm_resolve_loop_no_stage]
  · simp [idxterm_resolve_tokens, idxterm_resolve_loop_stage, List.map_map, Function.comp_def]
  · simp [idxterm_resolve_tokens, idxterm_resolve_loop_stage, List.map_map, Function.comp_def]
  · simp [idxterm_resolve_tokens, idxterm_resolve_loop_no_stage, List.map_map,
      Function.comp_def]

/-! ## Term counters -/

/-- C12, as stated, does not hold: the counter is a `uint64_t` and the addition wraps.
With the counter of the term at `2^64 - 1`, `idxterm_incr_total(term, 1)` leaves it at 0,
not at `old + count`, and the counter has decreased. -/
theorem idxterm_incr_total_wraps :
    ¬ ∀ (idx : nxs_index_t) (terms_memmap : idxmap_t) (term count : Nat) (obj : idxterm_t),
      idx.terms term = some obj → terms_memmap.counters obj.offset < 2 ^ 64 → count < 2 ^ 32 →
      ∃ r, idxterm_incr_total idx terms_memmap term count = some r ∧
        r.2.counters obj.offset = terms_memmap.counters obj.offset + count ∧
        terms_memmap.counters obj.offset ≤ r.2.counters obj.offset := by
  intro h
  have hobj : sample_index.terms 1 =
      some { id := 1, offset := 0, doc_bitmap := ∅, value := [100, 111, 103] } := by
    simp [sample_index, idxterm_assign, idxterm_create, idxterm_sysinit, rhashmap_put,
      rhashmap_get, rhashmap_create, roaring_bitmap_create, idxterm_init]
  obtain ⟨r, hr, _, hle⟩ := h sample_index { counters := fun _ => 2 ^ 64 - 1 } 1 1 _ hobj
    (by norm_num) (by norm_num)
  simp only [idxterm_incr_total, hobj, Option.some.injEq] at hr
  rw [← hr] at hle
  norm_num at hle

/-- C12 (amended): `idxterm_incr_total(term, count)` leaves the counter at
`term.offset` at `(old + count) mod 2^64`; when `old + count` is below `2^64` that is
`old + count`, and the counter has not decreased.  No other counter slot changes, and
the index (terms and dictionary mappings) is as before. -/
theorem idxterm_incr_total_adds (idx : nxs_index_t) (terms_memmap : idxmap_t)
    (term count : Nat) (obj : idxterm_t) (h : idx.terms term = some obj) :
    ∃ mm, idxterm_incr_total idx terms_memmap term count = some (idx, mm) ∧
      mm.counters obj.offset = (terms_memmap.counters obj.offset + count) % 2 ^ 64 ∧
      (terms_memmap.counters obj.offset + count < 2 ^ 64 →
        mm.counters obj.offset = terms_memmap.counters obj.offset + count ∧
        terms_memmap.counters obj.offset ≤ mm.counters obj.offset) ∧
      ∀ off, off ≠ obj.offset → mm.counters off = terms_memmap.counters off := by
  refine ⟨{ counters := fun off =>
      if off = obj.offset then (terms_memmap.counters off + count) % 2 ^ 64
      else terms_memmap.counters off }, by simp [idxterm_incr_total, h], by simp, ?_, ?_⟩
  · intro hlt
    have hmod : (terms_memmap.counters obj.offset + count) % 2 ^ 64 =
        terms_memmap.counters obj.offset + count := Nat.mod_eq_of_lt hlt
    simp only [if_true]
    rw [hmod]
    exact ⟨rfl, Nat.le_add_right _ _⟩
  · intro off hoff
    simp [hoff]

/-- C12 (amended), at a sample input: the counter of "dog" goes from 41 to 42. -/
theorem idxterm_incr_total_adds_witness :
    ∃ mm, idxterm_incr_total sample_index { counters := fun _ => 41 } 1 1 =
        some (sample_index, mm) ∧ mm.counters 0 = 42 := by
  obtain ⟨mm, h1, h2, _⟩ := idxterm_incr_total_adds sample_index { counters := fun _ => 41 }
    1 1 { id := 1, offset := 0, doc_bitmap := ∅, value := [100, 111, 103] }
    (by simp [sample_index, idxterm_assign, idxterm_create, idxterm_sysinit, rhashmap_put,
      rhashmap_get, rhashmap_create, roaring_bitmap_create, idxterm_init])
  exact ⟨mm, h1, by simpa using h2⟩

/-! ## The stop-word filter -/

/-- C15: for a context that is `NULL` or a stop-word set, `stopwords_filter` leaves the
buffer as it is and returns `DROP` exactly when the set is there and `rhashmap_get` finds
the bytes of the buffer in it; else it returns `MUTATION`; it never returns `ERROR`. -/
theorem stopwords_filter_drop_iff (swmap : Option (rhashmap (List UInt8) Nat))
    (buf : strbuf_t) :
    ∃ action, stopwords_filter (swmap.map context_t.swmap) buf = some (action, buf) ∧
      (action = FILT_DROP ↔
        ∃ m v, swmap = some m ∧ rhashmap_get m buf = some v ∧ v ≠ 0) ∧
      (action ≠ FILT_DROP → action = FILT_MUTATION) ∧ action ≠ FILT_ERROR := by
  cases swmap with
  | none => exact ⟨FILT_MUTATION, by simp [stopwords_filter], by simp, by simp, by simp⟩
  | some m =>
    cases hg : rhashmap_get m buf with
    | none =>
      exact ⟨FILT_MUTATION, by simp [stopwords_filter, hg], by simp [hg], by simp, by simp⟩
    | some v =>
      by_cases hv : v = 0
      · exact ⟨FILT_MUTATION, by simp [stopwords_filter, hg, hv], by simp [hg, hv],
          by simp, by simp⟩
      · exact ⟨FILT_DROP, by simp [stopwords_filter, hg, hv], by simp [hg, hv],
          by simp, by simp⟩

theorem take_strlen_eq_takeWhile (value : List UInt8) :
    value.take (strlen value) = value.takeWhile (fun b => b != 0) := by
  unfold strlen
  induction value with
  | nil => simp
  | cons b rest ih =>
    by_cases hb : (b != 0) = true
    · simp [List.takeWhile_cons, hb, ih]
    · simp [List.takeWhile_cons, hb]

theorem getLast?_takeWhile_ne_zero (value : List UInt8) :
    (value.takeWhile (fun b => b != 0)).getLast? ≠ some 0 := by
  intro h
  have hm : (0 : UInt8) ∈ value.takeWhile (fun b => b != 0) := List.mem_of_getLast?_eq_some h
  have h0 := List.mem_takeWhile_imp hm
  simp at h0

theorem stopwords_load_keys (lines : List (List UInt8)) :
    ∀ swdicts : rhashmap (List UInt8) Nat,
      (∀ key, swdicts key ≠ none → key.getLast? = some 0) →
      ∀ key, stopwords_load lines swdicts key ≠ none → key.getLast? = some 0 := by
  induction lines with
  | nil =>
    intro swdicts h key hk
    exact h key hk
  | cons line rest ih =>
    intro swdicts h key hk
    by_cases hl : 0 < line.length
    · simp only [stopwords_load, hl, if_true] at hk
      refine ih _ ?_ key hk
      intro k hk1
      cases hg : swdicts (line.dropLast ++ [0]) with
      | some old =>
        simp only [rhashmap_put, hg] at hk1
        exact h k hk1
      | none =>
        simp only [rhashmap_put, hg] at hk1
        by_cases hkey : k = line.dropLast ++ [0]
        · rw [hkey]
          simp
        · simp only [hkey, if_false] at hk1
          exact h k hk1
    · simp only [stopwords_load, hl, if_false] at hk
      exact h key hk

/-- Whatever the stop-word file holds, `stopwords_create` finds nothing: the keys of
`swdicts` are stop-word lines, which end in NUL, and the key looked up is the language
code up to its NUL. -/
theorem stopwords_create_eq_none (swfile : Option (List (List UInt8))) (lang : List UInt8) :
    stopwords_create (stopwords_sysinit swfile).2 lang = none := by
  have hkeys : ∀ key, (stopwords_sysinit swfile).2 key ≠ none → key.getLast? = some 0 := by
    cases swfile with
    | none =>
      intro key hk
      exact absurd rfl hk
    | some lines =>
      exact stopwords_load_keys lines rhashmap_create (fun key hk => absurd rfl hk)
  have hnone : (stopwords_sysinit swfile).2 (lang.take (strlen lang)) = none := by
    by_contra hne
    have h0 := hkeys _ hne
    rw [take_strlen_eq_takeWhile] at h0
    exact getLast?_takeWhile_ne_zero lang h0
  simp [stopwords_create, rhashmap_get, hnone]

/-- With the built-in filters registered (the registry has room for them), no pipeline
whose filter list names "stopwords" is ever returned, with or without a stop-word
file. -/
theorem filter_pipeline_create_stopwords_never (L : libs_t) (FILTER_MAX_ENTRIES : Nat)
    (swfile : Option (List (List UInt8))) (errno : Nat) (lang : List UInt8)
    (names : List String) (h4 : 4 ≤ FILTER_MAX_ENTRIES) (hmem : "stopwords" ∈ names) :
    ¬ ∃ fp, filter_pipeline_create
      (filters_builtin_sysinit L FILTER_MAX_ENTRIES swfile (filters_sysinit context_t)
        errno).nxs lang names = some (some fp) := by
  rw [filter_pipeline_create_returns_iff]
  intro hall
  obtain ⟨ops, hl, hc⟩ := hall "stopwords" hmem
  have hf := filters_builtin_sysinit_filters L FILTER_MAX_ENTRIES swfile errno h4
  simp only [filter_lookup, hf, filter_lookup_loop] at hl
  simp only [String.reduceEq, if_false, if_true, Option.some.injEq] at hl
  have hcr := hc (stopwords_create (stopwords_sysinit swfile).2) (by rw [← hl]; rfl)
  rw [stopwords_create_eq_none] at hcr
  exact Bool.noConfusion hcr

/-- C13, the failing input: without a stop-word file `filters_builtin_sysinit` returns 0,
but `stopwords_create` returns `NULL`, which `filter_pipeline_create` takes for a failed
`create`: the pipeline `stopwords` for "en" is not created (`NULL` is returned), and
creating the standard pipeline `normalizer, stopwords, stemmer` runs into the unwinding
over the unfilled third slot. -/
theorem filter_pipeline_create_stopwords_no_file :
    (filters_builtin_sysinit sample_libs 8 none (filters_sysinit context_t) 0).ret = 0 ∧
    filter_pipeline_create
      (filters_builtin_sysinit sample_libs 8 none (filters_sysinit context_t) 0).nxs
      [101, 110] ["stopwords"] = some none ∧
    filter_pipeline_create
      (filters_builtin_sysinit sample_libs 8 none (filters_sysinit context_t) 0).nxs
      [101, 110] ["normalizer", "stopwords", "stemmer"] = none := by
  have hf := filters_builtin_sysinit_filters sample_libs 8 none 0 (by decide)
  have hc : ∀ lang, stopwords_create (stopwords_sysinit none).2 lang = none :=
    fun lang => stopwords_create_eq_none none lang
  refine ⟨rfl, ?_, ?_⟩
  · simp [filter_pipeline_create, filter_pipeline_fill, filter_pipeline_destroy,
      filter_pipeline_destroy_loop, filter_lookup, hf, filter_lookup_loop, stopwords_ops, hc]
  · simp [filter_pipeline_create, filter_pipeline_fill, filter_pipeline_destroy,
      filter_pipeline_destroy_loop, filter_lookup, hf, filter_lookup_loop, stopwords_ops, hc,
      normalizer_ops, normalizer_create, sample_libs, filter_t.zero]

/-- C14, the failing input: for every stop-word file, `stopwords_create` returns `NULL`
for every language code, and `stopwords_filter` with that context returns `MUTATION` on
every buffer; with the file of the one line "the", the buffer "the" is not dropped. -/
theorem stopwords_create_never_finds_set :
    (∀ (swfile : Option (List (List UInt8))) (lang : List UInt8) (buf : strbuf_t),
      stopwords_create (stopwords_sysinit swfile).2 lang = none ∧
      stopwords_filter (stopwords_create (stopwords_sysinit swfile).2 lang) buf =
        some (FILT_MUTATION, buf)) ∧
    stopwords_filter
      (stopwords_create (stopwords_sysinit (some [[116, 104, 101, 10]])).2 [101, 110])
      [116, 104, 101] = some (FILT_MUTATION, [116, 104, 101]) := by
  have key : ∀ (swfile : Option (List (List UInt8))) (lang : List UInt8) (buf : strbuf_t),
      stopwords_create (stopwords_sysinit swfile).2 lang = none ∧
      stopwords_filter (stopwords_create (stopwords_sysinit swfile).2 lang) buf =
        some (FILT_MUTATION, buf) := by
    intro swfile lang buf
    rw [stopwords_create_eq_none]
    exact ⟨rfl, rfl⟩
  exact ⟨key, (key _ _ _).2⟩

/-! ## Pipeline construction -/

theorem filter_pipeline_fill_length {κ : Type} (nxs : nxs_t κ) (lang : List UInt8)
    (names : List String) : (filter_pipeline_fill nxs lang names).1.length = names.length := by
  induction names with
  | nil => simp [filter_pipeline_fill]
  | cons name rest ih =>
    cases hl : filter_lookup nxs name with
    | none => simp [filter_pipeline_fill, hl]
    | some ops =>
      cases hc : ops.create with
      | none => simp [filter_pipeline_fill, hl, hc, ih]
      | some create =>
        cases hr : create lang with
        | none => simp [filter_pipeline_fill, hl, hc, hr]
        | some ctx => simp [filter_pipeline_fill, hl, hc, hr, ih]

theorem filter_pipeline_fill_slot {κ : Type} (nxs : nxs_t κ) (lang : List UInt8)
    (names : List String) :
    (filter_pipeline_fill nxs lang names).2 = true →
    ∀ (i : Nat) (name : String), names[i]? = some name →
      ∃ ops, filter_lookup nxs name = some ops ∧
        (filter_pipeline_fill nxs lang names).1[i]? =
          some { context := match ops.create with
                            | none => none
                            | some create => create lang,
                 ops := some ops } ∧
        ∀ create, ops.create = some create → (create lang).isSome = true := by
  induction names with
  | nil =>
    intro _ i name hi
    simp at hi
  | cons name0 rest ih =>
    intro hok i name hi
    cases hl : filter_lookup nxs name0 with
    | none => simp [filter_pipeline_fill, hl] at hok
    | some ops =>
      cases hc : ops.create with
      | none =>
        simp only [filter_pipeline_fill, hl, hc] at hok ⊢
        cases i with
        | zero =>
          simp only [List.getElem?_cons_zero, Option.some.injEq] at hi
          subst hi
          exact ⟨ops, hl, by simp [hc], by simp [hc]⟩
        | succ j =>
          simp only [List.getElem?_cons_succ] at hi ⊢
          exact ih hok j name hi
      | some create =>
        cases hr : create lang with
        | none => simp [filter_pipeline_fill, hl, hc, hr] at hok
        | some ctx =>
          simp only [filter_pipeline_fill, hl, hc, hr] at hok ⊢
          cases i with
          | zero =>
            simp only [List.getElem?_cons_zero, Option.some.injEq] at hi
            subst hi
            refine ⟨ops, hl, by simp [hc, hr], ?_⟩
            intro c hcc
            rw [hc] at hcc
            cases hcc
            simp [hr]
          | succ j =>
            simp only [List.getElem?_cons_succ] at hi ⊢
            exact ih hok j name hi

/-- C16: a pipeline that `filter_pipeline_create` returns has as many slots as there are
names; slot `i` holds the ops that `filter_lookup` returns for the `i`-th name and, as
context, what the `create` of those ops returned for the saved language code (`NULL`
when the ops have no `create`); the saved language code is the first two bytes of the
language string. -/
theorem filter_pipeline_create_slots {κ : Type} (nxs : nxs_t κ) (lang : List UInt8)
    (names : List String) (fp : filter_pipeline_t κ)
    (h : filter_pipeline_create nxs lang names = some (some fp)) :
    fp.count = names.length ∧
    (∀ (i : Nat) (name : String), names[i]? = some name →
      ∃ ops, filter_lookup nxs name = some ops ∧
        fp.filters[i]? =
          some { context := match ops.create with
                            | none => none
                            | some create => create fp.lang,
                 ops := some ops } ∧
        ∀ create, ops.create = some create → (create fp.lang).isSome = true) ∧
    fp.lang = (lang.takeWhile (fun b => b != 0)).take 2 ∧
    ((0 : UInt8) ∉ lang → fp.lang = lang.take 2) := by
  cases hok : (filter_pipeline_fill nxs ((lang.takeWhile (fun b => b != 0)).take 2) names).2 with
  | false =>
    simp only [filter_pipeline_create, hok, Bool.false_eq_true, if_false] at h
    split at h <;> simp at h
  | true =>
    simp only [filter_pipeline_create, hok, if_true, Option.some.injEq] at h
    subst h
    refine ⟨?_, ?_, rfl, ?_⟩
    · simp [filter_pipeline_t.count, filter_pipeline_fill_length]
    · intro i name hi
      exact filter_pipeline_fill_slot nxs _ names hok i name hi
    · intro hz
      have hall : lang.takeWhile (fun b => b != 0) = lang := by
        rw [List.takeWhile_eq_self_iff]
        intro b hb
        have hne : b ≠ 0 := fun h0 => hz (h0 ▸ hb)
        simpa using hne
      simp only [hall]

/-- C16 at a sample input: the pipeline `normalizer, stemmer` for the language string
"eng" has the two slots with the contexts the library handed out, and the language code
"en". -/
theorem filter_pipeline_create_slots_witness :
    filter_pipeline_create
      (filters_builtin_sysinit sample_libs 8 none (filters_sysinit context_t) 0).nxs
      [101, 110, 103] ["normalizer", "stemmer"] =
      some (some
        { lang := [101, 110],
          filters := [{ context := some (context_t.utf8 1),
                        ops := some (normalizer_ops sample_libs) },
                      { context := some (context_t.stemmer 2),
                        ops := some (stemmer_ops sample_libs) }] }) ∧
    ({ lang := [101, 110],
       filters := [{ context := some (context_t.utf8 1),
                     ops := some (normalizer_ops sample_libs) },
                   { context := some (context_t.stemmer 2),
                     ops := some (stemmer_ops sample_libs) }] } :
      filter_pipeline_t context_t).count = 2 :=
  have hf := filters_builtin_sysinit_filters sample_libs 8 none 0 (by decide)
  have hc : filter_pipeline_create
      (filters_builtin_sysinit sample_libs 8 none (filters_sysinit context_t) 0).nxs
      [101, 110, 103] ["normalizer", "stemmer"] =
      some (some
        { lang := [101, 110],
          filters := [{ context := some (context_t.utf8 1),
                        ops := some (normalizer_ops sample_libs) },
                      { context := some (context_t.stemmer 2),
                        ops := some (stemmer_ops sample_libs) }] }) := by
    have ht : (List.takeWhile (fun b => b != 0) ([101, 110, 103] : List UInt8)).take 2 =
        [101, 110] := by decide
    simp [filter_pipeline_create, ht, filter_pipeline_fill, filter_lookup, hf,
      filter_lookup_loop, normalizer_ops, normalizer_create, stemmer_ops, stemmer_create,
      sample_libs]
  ⟨hc, (filter_pipeline_create_slots _ _ _ _ hc).1⟩

/-- C17, the failing inputs.  (1) `normalizer, nosuch`: the pipeline that the failed
`filter_pipeline_create` hands to `filter_pipeline_destroy` has the second slot unfilled;
`filter_pipeline_destroy` calls the `destroy` of the first slot and then reads the ops of
the second, which is `NULL` (the loop does not run to its end).  (2) `normalizer` with a
`create` that returns `NULL`: `filter_pipeline_destroy` calls the `destroy` of the slot on
the `NULL` context, which was never created. -/
theorem filter_pipeline_destroy_partial_pipeline :
    (filter_pipeline_fill
      (filters_builtin_sysinit sample_libs 8 none (filters_sysinit context_t) 0).nxs
      [101, 110] ["normalizer", "nosuch"]).2 = false ∧
    filter_pipeline_destroy
      { lang := [101, 110],
        filters := (filter_pipeline_fill
          (filters_builtin_sysinit sample_libs 8 none (filters_sysinit context_t) 0).nxs
          [101, 110] ["normalizer", "nosuch"]).1 } =
      ([some (context_t.utf8 1)], false) ∧
    (filter_pipeline_fill
      (filters_builtin_sysinit sample_libs_no_utf8 8 none (filters_sysinit context_t) 0).nxs
      [101, 110] ["normalizer"]).2 = false ∧
    filter_pipeline_destroy
      { lang := [101, 110],
        filters := (filter_pipeline_fill
          (filters_builtin_sysinit sample_libs_no_utf8 8 none (filters_sysinit context_t)
            0).nxs
          [101, 110] ["normalizer"]).1 } =
      ([none], true) := by
  have hf := filters_builtin_sysinit_filters sample_libs 8 none 0 (by decide)
  have hg := filters_builtin_sysinit_filters sample_libs_no_utf8 8 none 0 (by decide)
  refine ⟨?_, ?_, ?_, ?_⟩
  · simp [filter_pipeline_fill, filter_lookup, hf, filter_lookup_loop, normalizer_ops,
      normalizer_create, sample_libs]
  · simp [filter_pipeline_fill, filter_lookup, hf, filter_lookup_loop, normalizer_ops,
      normalizer_create, sample_libs, filter_pipeline_destroy, filter_pipeline_destroy_loop]
  · simp [filter_pipeline_fill, filter_lookup, hg, filter_lookup_loop, normalizer_ops,
      normalizer_create, sample_libs_no_utf8]
  · simp [filter_pipeline_fill, filter_lookup, hg, filter_lookup_loop, normalizer_ops,
      normalizer_create, sample_libs_no_utf8, filter_pipeline_destroy,
      filter_pipeline_destroy_loop]

/-! ## Create, assign, add, destroy -/

theorem idxterm_assign_eq (idx : nxs_index_t) (term term_id : Nat) (obj : idxterm_t)
    (h : idx.terms term = some obj) :
    idxterm_assign idx term term_id =
      some { idx with
        terms := fun a => if a = term then some { obj with id := term_id } else idx.terms a,
        td_map := (rhashmap_put idx.td_map term_id term).1 } := by
  simp [idxterm_assign, h]

/-- After `idxterm_create` of a new value, `idxterm_assign` of a term ID that `td_map`
does not hold and `idxterm_add_doc` of a document under that ID, `idxterm_lookup` of the
value returns the new term, which has the ID, and whose bitmap holds the document ID
reduced modulo `2^32`; a token with the bytes of the value resolves to the term. -/
theorem idxterm_create_assign_add_doc (idx : nxs_index_t) (term : Nat) (token : List UInt8)
    (offset term_id d : Nat) (hnew : idxterm_lookup idx token = none)
    (hfree : rhashmap_get idx.td_map term_id = none) :
    ∃ idx1 idx2 obj,
      idxterm_assign (idxterm_create idx term token offset).idx term term_id = some idx1 ∧
      idxterm_add_doc idx1 term_id d = some (0, idx2) ∧
      idxterm_lookup idx2 token = some term ∧ idx2.terms term = some obj ∧
      obj.id = term_id ∧ obj.doc_bitmap = {d % 2 ^ 32} ∧
      ∀ stage : Bool,
        (idxterm_resolve_tokens idx2
          { list := [{ buffer := token, idxterm := none }], staging := [] } stage).list =
          [{ buffer := token, idxterm := some term }] := by
  have hfree1 : idx.td_map term_id = none := hfree
  rw [idxterm_create_eq_of_absent idx term token offset hnew]
  have hassign : ∃ idx1, idxterm_assign
      { idx with
        terms := fun a => if a = term then some (idxterm_init token offset) else idx.terms a,
        term_map := fun k => if k = token then some term else idx.term_map k,
        term_list := idx.term_list ++ [term] } term term_id = some idx1 ∧
      idx1.terms term = some { (idxterm_init token offset) with id := term_id } ∧
      rhashmap_get idx1.td_map term_id = some term ∧
      idx1.term_map = fun k => if k = token then some term else idx.term_map k := by
    refine ⟨_, idxterm_assign_eq _ term term_id (idxterm_init token offset) (by simp),
      by simp, ?_, rfl⟩
    simp [rhashmap_put, rhashmap_get, hfree1]
  obtain ⟨idx1, h1, hobj, htd, htm⟩ := hassign
  obtain ⟨idx2, h2, hobj2, _, htm2, _, _⟩ :=
    idxterm_add_doc_known_term idx1 term_id d term _ htd hobj
  have hl : idxterm_lookup idx2 token = some term := by
    simp [idxterm_lookup, rhashmap_get, htm2, htm]
  refine ⟨idx1, idx2, _, h1, h2, hl, hobj2, rfl, ?_, ?_⟩
  · simp [idxterm_init, roaring_bitmap_create]
  · intro stage
    simp [idxterm_resolve_tokens, idxterm_resolve_loop, hl]

/-- C19, the failing input: on the empty dictionary, create "dog", assign it the term ID
1 and add the document `2^32 + 1` under that ID.  Every call succeeds, `idxterm_lookup`
of "dog" returns the term and the term has the ID 1, but its bitmap is `{1}`: it does
not contain the document that was added. -/
theorem idxterm_lookup_symmetry_truncated :
    ∃ idx1 idx2 obj,
      idxterm_assign (idxterm_create idxterm_sysinit 1 [100, 111, 103] 0).idx 1 1 =
        some idx1 ∧
      idxterm_add_doc idx1 1 4294967297 = some (0, idx2) ∧
      idxterm_lookup idx2 [100, 111, 103] = some 1 ∧ idx2.terms 1 = some obj ∧
      obj.id = 1 ∧ obj.doc_bitmap = {1} ∧ 4294967297 ∉ obj.doc_bitmap := by
  obtain ⟨idx1, idx2, obj, h1, h2, h3, h4, h5, h6, _⟩ :=
    idxterm_create_assign_add_doc idxterm_sysinit 1 [100, 111, 103] 0 1 4294967297 rfl rfl
  have h7 : obj.doc_bitmap = {1} := by
    rw [h6]
    norm_num
  exact ⟨idx1, idx2, obj, h1, h2, h3, h4, h5, h7, by rw [h7]; simp⟩

theorem idxterm_destroy_create (idx : nxs_index_t) (term : Nat) (token : List UInt8)
    (offset : Nat) (hfresh : idx.terms term = none) (hnotin : term ∉ idx.term_list)
    (hnew : idxterm_lookup idx token = none) (hnul : (0 : UInt8) ∉ token) :
    idxterm_destroy (idxterm_create idx term token offset).idx term = some idx := by
  have hnew1 : idx.term_map token = none := hnew
  rw [idxterm_create_eq_of_absent idx term token offset hnew]
  have hheap : (fun a => if a = term then none else
      if a = term then some (idxterm_init token offset) else idx.terms a) = idx.terms := by
    funext a
    by_cases ha : a = term
    · simp [ha, hfresh]
    · simp [ha]
  have hmap : rhashmap_del (fun k => if k = token then some term else idx.term_map k) token =
      idx.term_map := by
    funext k
    by_cases hk : k = token
    · simp [rhashmap_del, hk, hnew1]
    · simp [rhashmap_del, hk]
  have hlist : (idx.term_list ++ [term]).erase term = idx.term_list := by
    rw [List.erase_append_right _ hnotin]
    simp
  have htake : (idxterm_init token offset).value.take (strlen (idxterm_init token offset).value)
      = token := by
    simpa using take_strlen_of_no_nul token hnul
  simp only [idxterm_destroy, if_true, idxterm_init_id, ne_eq, not_true_eq_false, if_false,
    htake, hheap, hmap, hlist]

theorem idxterm_destroy_assign_create (idx : nxs_index_t) (term : Nat) (token : List UInt8)
    (offset term_id : Nat) (hfresh : idx.terms term = none) (hnotin : term ∉ idx.term_list)
    (hnew : idxterm_lookup idx token = none) (hnul : (0 : UInt8) ∉ token)
    (hid : term_id ≠ 0) (hfree : rhashmap_get idx.td_map term_id = none) :
    ∃ idx1, idxterm_assign (idxterm_create idx term token offset).idx term term_id =
        some idx1 ∧ idxterm_destroy idx1 term = some idx := by
  have hnew1 : idx.term_map token = none := hnew
  have hfree1 : idx.td_map term_id = none := hfree
  rw [idxterm_create_eq_of_absent idx term token offset hnew]
  refine ⟨_, idxterm_assign_eq _ term term_id (idxterm_init token offset) (by simp), ?_⟩
  have hlist : (idx.term_list ++ [term]).erase term = idx.term_list := by
    rw [List.erase_append_right _ hnotin]
    simp
  have htake : token.take (strlen token) = token := take_strlen_of_no_nul token hnul
  simp only [idxterm_destroy, if_true, idxterm_init_value, ne_eq, hid, not_false_eq_true,
    htake, hlist]
  obtain ⟨terms, tm, td, tl⟩ := idx
  simp only [Option.some.injEq, nxs_index_t.mk.injEq, and_true]
  simp only at hfresh hnew1 hfree1
  refine ⟨?_, ?_, ?_⟩
  · funext a
    by_cases ha : a = term
    · simp [ha, hfresh]
    · simp [ha]
  · funext k
    by_cases hk : k = token
    · simp [rhashmap_del, hk, hnew1]
    · simp [rhashmap_del, hk]
  · funext k
    by_cases hk : k = term_id
    · simp [rhashmap_del, hk, hfree1]
    · simp [rhashmap_del, rhashmap_put, hfree1, hk]

end Nxs
